import Mathlib

/-!
# StratifyOS scheduler: priority engine and block/wake protocol

A shallow embedding of `src/sys/scheduler/scheduler.c`, and of `link_writeflash`
of `src/link/link_bootloader.c`.

* The two parallel C arrays `sos_task_table` and `sos_sched_table` (same length
  `task_total`, same index) are one list of `Task` records.
* Signed C integers are `Int`; the one variable of type `s8` in the file
  (`next_priority` of `scheduler_root_update_on_stopped`) is wrapped with `s8`
  at each assignment.
* `void *` block objects are natural numbers compared for equality, `NULL` is `0`.
* Calls whose effect lies outside the tables (the deferred context switch, the
  activation of a task) are appended to a log so that their number and order
  can be stated.
* A read outside the table is undefined in C; the functions that can perform
  one return `Option`, with `none` for that case (and for an exhausted loop
  budget).
* `check_faults` and the `while (1)` loop of `scheduler()` work on the fault
  record and on a record of the calls they make (trace emissions, delays, the
  idle hook, `sched_yield`); what the collaborators answer (the outcome of a
  trace emission, the value of `task_get_exec_count()`) is a parameter.
* `link_writeflash` works on a record of its page writes and of its reads of
  the caller's buffer, each read with its offset from the start of the buffer
  and its length; the memory at and after the buffer is a function of the
  offset, so that a read past the end of the buffer shows in the record.
-/

namespace StratifyOS

/-- One slot of the task table: the fields of `sos_task_table[i]` and
`sos_sched_table[i]` that `scheduler.c` reads or writes. -/
structure Task where
  /-- The slot is in use (`task_enabled`). -/
  enabled : Bool
  /-- The task is eligible to run (`task_active_asserted`). -/
  active : Bool
  /-- The task is stopped by a signal (`task_stopped_asserted`). -/
  stopped : Bool
  /-- Effective priority, `task_get_priority(i)`. -/
  priority : Int
  /-- Base priority, `sos_sched_table[i].attr.schedparam.sched_priority`. -/
  sched_priority : Int
  /-- What the task waits for, `sos_sched_table[i].block_object`; `0` is `NULL`. -/
  block_object : Nat
  /-- The reason recorded by the last activation. -/
  unblock_type : Int
  deriving DecidableEq, Repr

/-- Effects that leave the task table. -/
inductive Event where
  /-- The current-priority register is written with the value. -/
  | priority_write (value : Int)
  /-- The call `task_root_switch_context()`: a deferred context-switch request. -/
  | switch_context
  /-- The call `scheduler_root_assert_active(id, unblock_type)`. -/
  | assert_active (id : Nat) (unblock_type : Int)
  /-- The call `scheduler_root_deassert_active(id)`. -/
  | deassert_active (id : Nat)
  deriving DecidableEq, Repr

/-- The kernel state the scheduler functions work on. -/
structure Sched where
  /-- The task table; `task_get_total()` is its length. -/
  table : List Task
  /-- The index returned by `task_get_current()`. -/
  current_task : Nat
  /-- The current-priority register, `task_get_current_priority()`. -/
  current_priority : Int
  /-- The effects issued so far, oldest first. -/
  log : List Event
  deriving DecidableEq, Repr

/-- Conversion of a C `int` to `s8` (two's complement, 8 bits). -/
def s8 (x : Int) : Int := (x + 128) % 256 - 128

/-- The C function `task_get_total()`. -/
def task_get_total (table : List Task) : Nat := table.length

/-- Modelled from the spec: the flag test `task_enabled(i)` of the absent task
header, "enabled flag (slot in use)". -/
def task_enabled (table : List Task) (i : Nat) : Bool :=
  match table[i]? with
  | some t => t.enabled
  | none => false

/-- Modelled from the spec: the flag test `task_active_asserted(i)` of the absent
task header, "active flag (eligible to run right now)". -/
def task_active_asserted (table : List Task) (i : Nat) : Bool :=
  match table[i]? with
  | some t => t.active
  | none => false

/-- Modelled from the spec: the flag test `task_stopped_asserted(i)` of the absent
task header, "stopped flag (suspended by a signal-like mechanism)". -/
def task_stopped_asserted (table : List Task) (i : Nat) : Bool :=
  match table[i]? with
  | some t => t.stopped
  | none => false

/-- Modelled from the spec: the flag test `task_enabled_active_not_stopped(i)` of
the absent task header, "enabled, active, not-stopped". -/
def task_enabled_active_not_stopped (table : List Task) (i : Nat) : Bool :=
  match table[i]? with
  | some t => t.enabled && t.active && !t.stopped
  | none => false

/-- Modelled from the spec: the accessor `task_get_priority(i)` of the absent task
header, the "current effective priority" of task `i`. -/
def task_get_priority (table : List Task) (i : Nat) : Int :=
  match table[i]? with
  | some t => t.priority
  | none => 0

/-- The field read `sos_sched_table[i].attr.schedparam.sched_priority`. -/
def sched_priority_of (table : List Task) (i : Nat) : Int :=
  match table[i]? with
  | some t => t.sched_priority
  | none => 0

/-- The field read `sos_sched_table[i].block_object`. -/
def block_object_of (table : List Task) (i : Nat) : Nat :=
  match table[i]? with
  | some t => t.block_object
  | none => 0

/-- Modelled from the spec: `task_root_set_current_priority(value)` of the absent
task header, "sets the system-wide current priority register". -/
def task_root_set_current_priority (s : Sched) (value : Int) : Sched :=
  { s with current_priority := value, log := s.log ++ [Event.priority_write value] }

/-- Modelled from the spec: `task_root_switch_context()` of the absent task
header, "triggers a context-switch request (interrupt-level, deferred)". -/
def task_root_switch_context (s : Sched) : Sched :=
  { s with log := s.log ++ [Event.switch_context] }

/-- Modelled from the spec: `task_root_elevate_current_priority(value)` of the
absent task header; the caller's comment reads "elevate the priority (changes
only if new_priority is higher than current". -/
def task_root_elevate_current_priority (s : Sched) (value : Int) : Sched :=
  if value > s.current_priority then task_root_set_current_priority s value else s

/-- Modelled from the spec: `scheduler_root_assert_active(id, unblock_type)` of
the absent scheduler header, the task "is marked active with the given wake
reason recorded for the task to observe on resumption". -/
def scheduler_root_assert_active (table : List Task) (id : Nat) (unblock_type : Int) :
    List Task :=
  match table[id]? with
  | some t => table.set id { t with active := true, unblock_type := unblock_type }
  | none => table

/-- Modelled from the spec: `scheduler_root_deassert_active(id)` of the absent
scheduler header, the task "becomes inactive". -/
def scheduler_root_deassert_active (table : List Task) (id : Nat) : List Task :=
  match table[id]? with
  | some t => table.set id { t with active := false }
  | none => table

/-- One pass of the body of the `for` loop of `scheduler_root_update_on_stopped`
at index `i`, `next_priority` being the `s8` local. -/
def update_on_stopped_body (table : List Task) (next_priority : Int) (i : Nat) : Int :=
  if task_enabled_active_not_stopped table i
      && decide (task_get_priority table i > next_priority) then
    s8 (task_get_priority table i)
  else
    next_priority

/-- The C function `scheduler_root_update_on_stopped()`, with
`CONFIG_SCHED_LOWEST_PRIORITY` as the parameter `lowest`: the loop runs over
`i = 1, ..., task_get_total() - 1`; interrupts are disabled around it. -/
def scheduler_root_update_on_stopped (lowest : Int) (s : Sched) : Sched :=
  let next_priority : Int := s8 lowest
  let next_priority :=
    (List.range' 1 (task_get_total s.table - 1)).foldl
      (update_on_stopped_body s.table) next_priority
  let s := task_root_set_current_priority s next_priority
  task_root_switch_context s

/-- The C function `scheduler_root_update_on_sleep()`. -/
def scheduler_root_update_on_sleep (lowest : Int) (s : Sched) : Sched :=
  let s :=
    { s with
      table := scheduler_root_deassert_active s.table s.current_task,
      log := s.log ++ [Event.deassert_active s.current_task] }
  scheduler_root_update_on_stopped lowest s

/-- The C function `scheduler_root_update_on_wake(id, new_priority)`. The flag of
task `id` is read only when `id > 0`; a read past the end of the table is
undefined and gives `none`. -/
def scheduler_root_update_on_wake (s : Sched) (id : Int) (new_priority : Int) :
    Option Sched :=
  if new_priority < s.current_priority then
    some s
  else if id > 0 then
    match s.table[id.toNat]? with
    | none => none
    | some t =>
      if t.stopped then
        some s
      else
        some (task_root_switch_context (task_root_elevate_current_priority s new_priority))
  else
    some (task_root_switch_context (task_root_elevate_current_priority s new_priority))

/-- The local variables of `scheduler_get_highest_priority_blocked` that the loop
changes, with the list of table indices read so far (oldest first). -/
structure ScanState where
  /-- The local `new_thread`. -/
  new_thread : Int
  /-- The local `priority`. -/
  priority : Int
  /-- The indices at which the table has been read. -/
  visited : List Nat
  deriving DecidableEq, Repr

/-- The statements of the `do` body of `scheduler_get_highest_priority_blocked`
that examine task `i` (before `i++`). -/
def scan_body (table : List Task) (block_object : Nat) (st : ScanState) (i : Nat) :
    ScanState :=
  let st := { st with visited := st.visited ++ [i] }
  if task_enabled table i then
    if block_object_of table i == block_object && !task_active_asserted table i then
      if !task_stopped_asserted table i
          && decide (sched_priority_of table i > st.priority) then
        { st with new_thread := (i : Int), priority := sched_priority_of table i }
      else st
    else st
  else st

/-- The `do ... while (i != current_task)` loop of
`scheduler_get_highest_priority_blocked`. `fuel` bounds the number of passes;
`none` is an exhausted budget or a read outside the table. -/
def scan_loop (table : List Task) (block_object : Nat) (current_task : Nat) :
    Nat → Nat → ScanState → Option ScanState
  | 0, _, _ => none
  | fuel + 1, i, st =>
    if i < task_get_total table then
      let st := scan_body table block_object st i
      let i := i + 1
      let i := if i = task_get_total table then 1 else i
      if i ≠ current_task then
        scan_loop table block_object current_task fuel i st
      else
        some st
    else
      none

/-- The C function `scheduler_get_highest_priority_blocked(block_object)` up to
the end of the loop, with `CONFIG_SCHED_LOWEST_PRIORITY` as the parameter
`lowest`; the loop budget is `task_get_total()` passes. -/
def scheduler_get_highest_priority_blocked_scan (lowest : Int) (s : Sched)
    (block_object : Nat) : Option ScanState :=
  let current_task := s.current_task
  let priority := lowest - 1
  let new_thread : Int := -1
  let current_task := if current_task = 0 then current_task + 1 else current_task
  let i := current_task + 1
  let i := if i = task_get_total s.table then 1 else i
  scan_loop s.table block_object current_task (task_get_total s.table) i
    { new_thread := new_thread, priority := priority, visited := [] }

/-- The C function `scheduler_get_highest_priority_blocked(block_object)`: the
value of `new_thread` it returns. -/
def scheduler_get_highest_priority_blocked (lowest : Int) (s : Sched)
    (block_object : Nat) : Option Int :=
  (scheduler_get_highest_priority_blocked_scan lowest s block_object).map
    ScanState.new_thread

/-- The loop state of `scheduler_root_unblock_all`: the table, the local
`priority` and the effects issued. -/
structure UnblockState where
  /-- The task table. -/
  table : List Task
  /-- The local `priority`. -/
  priority : Int
  /-- The effects issued so far, oldest first. -/
  log : List Event
  deriving DecidableEq, Repr

/-- The body of the `for` loop of `scheduler_root_unblock_all` at index `i`. -/
def unblock_all_body (block_object : Nat) (unblock_type : Int) (st : UnblockState)
    (i : Nat) : UnblockState :=
  if task_enabled st.table i then
    if block_object_of st.table i == block_object && !task_active_asserted st.table i then
      let st :=
        { st with
          table := scheduler_root_assert_active st.table i unblock_type,
          log := st.log ++ [Event.assert_active i unblock_type] }
      if !task_stopped_asserted st.table i
          && decide (sched_priority_of st.table i > st.priority) then
        { st with priority := sched_priority_of st.table i }
      else st
    else st
  else st

/-- The C function `scheduler_root_unblock_all(block_object, unblock_type)`, with
`CONFIG_SCHED_LOWEST_PRIORITY` as the parameter `lowest`: the new state and the
returned priority. The loop runs over `i = 1, ..., task_get_total() - 1`. -/
def scheduler_root_unblock_all (lowest : Int) (s : Sched) (block_object : Nat)
    (unblock_type : Int) : Sched × Int :=
  let priority := lowest - 1
  let st :=
    (List.range' 1 (task_get_total s.table - 1)).foldl
      (unblock_all_body block_object unblock_type)
      { table := s.table, priority := priority, log := s.log }
  ({ s with table := st.table, log := st.log }, st.priority)


/-- Effective priorities of the tasks other than task 0 lie between the floor
and the largest `s8` value, and the floor is an `s8` value. -/
def PriorityBounds (lowest : Int) (table : List Task) : Prop :=
  -128 ≤ lowest ∧ lowest ≤ 127 ∧
    ∀ t ∈ table.tail, lowest ≤ t.priority ∧ t.priority ≤ 127

instance (lowest : Int) (table : List Task) : Decidable (PriorityBounds lowest table) := by
  unfold PriorityBounds; infer_instance

/-- Task `i` of `table` waits on `block_object`: the test made by
`scheduler_root_unblock_all` before it activates a task. -/
def is_waiting (table : List Task) (block_object : Nat) (i : Nat) : Bool :=
  task_enabled table i
    && (block_object_of table i == block_object && !task_active_asserted table i)

/-- What `scheduler_root_unblock_all` does to one entry of the table. -/
def activate_entry (block_object : Nat) (unblock_type : Int) (t : Task) : Task :=
  if t.enabled && (t.block_object == block_object && !t.active) then
    { t with active := true, unblock_type := unblock_type }
  else t

/-- The update of the local `priority` of `scheduler_root_unblock_all` at index
`i`, read off the table as it was before the call. -/
def unblock_priority_step (table : List Task) (block_object : Nat) (priority : Int)
    (i : Nat) : Int :=
  if is_waiting table block_object i
      && (!task_stopped_asserted table i
        && decide (sched_priority_of table i > priority)) then
    sched_priority_of table i
  else priority

/-- Base priorities of the tasks other than task 0 are not below the floor. -/
def BasePriorityBounds (lowest : Int) (table : List Task) : Prop :=
  ∀ t ∈ table.tail, lowest ≤ t.sched_priority

instance (lowest : Int) (table : List Task) :
    Decidable (BasePriorityBounds lowest table) := by
  unfold BasePriorityBounds; infer_instance

/-- The current-priority register of `s` is the largest effective priority among
the tasks of index at least 1 that are enabled, active and not stopped, or the
floor `lowest` when there is no such task. -/
def CurrentPriorityIsMax (lowest : Int) (s : Sched) : Prop :=
  (∀ i t, 1 ≤ i → s.table[i]? = some t →
    t.enabled = true → t.active = true → t.stopped = false →
    t.priority ≤ s.current_priority) ∧
  ((∃ i t, 1 ≤ i ∧ s.table[i]? = some t ∧
      t.enabled = true ∧ t.active = true ∧ t.stopped = false ∧
      s.current_priority = t.priority) ∨
    ((∀ i t, 1 ≤ i → s.table[i]? = some t →
        ¬ (t.enabled = true ∧ t.active = true ∧ t.stopped = false)) ∧
      s.current_priority = lowest))

/-- The four operations that change the priority engine's state. -/
inductive Op where
  /-- A call of `scheduler_root_update_on_stopped()`. -/
  | update_on_stopped
  /-- A call of `scheduler_root_update_on_sleep()`. -/
  | update_on_sleep
  /-- A call of `scheduler_root_update_on_wake(id, new_priority)`. -/
  | update_on_wake (id : Int) (new_priority : Int)
  /-- A call of `scheduler_root_unblock_all(block_object, unblock_type)`. -/
  | unblock_all (block_object : Nat) (unblock_type : Int)
  deriving DecidableEq, Repr

/-- One operation applied to a state. -/
def step (lowest : Int) (s : Sched) : Op → Option Sched
  | Op.update_on_stopped => some (scheduler_root_update_on_stopped lowest s)
  | Op.update_on_sleep => some (scheduler_root_update_on_sleep lowest s)
  | Op.update_on_wake id new_priority => scheduler_root_update_on_wake s id new_priority
  | Op.unblock_all block_object unblock_type =>
    some (scheduler_root_unblock_all lowest s block_object unblock_type).1

/-- A sequence of operations applied to a state, first operation first. -/
def run (lowest : Int) (s : Sched) : List Op → Option Sched
  | [] => some s
  | op :: ops => (step lowest s op).bind (fun s1 => run lowest s1 ops)

/-- The table of the spec's end-to-end scenario: task 0 is the scheduler, tasks
1, 2 and 3 have priorities 5, 5 and 10 and are blocked on block object `7`. -/
def demo_table : List Task :=
  [⟨true, true, false, 21, 21, 0, 0⟩, ⟨true, false, false, 5, 5, 7, 0⟩,
    ⟨true, false, false, 5, 5, 7, 0⟩, ⟨true, false, false, 10, 10, 7, 0⟩]

/-- The scenario's state with a given current task, register `0`, empty log. -/
def demo_state (current_task : Nat) : Sched :=
  ⟨demo_table, current_task, 0, []⟩

/-- A two-entry table whose task 0 is stopped, with register `0`. -/
def stopped_scheduler_state : Sched :=
  ⟨[⟨true, true, true, 0, 0, 0, 0⟩, ⟨true, true, false, 0, 0, 0, 0⟩], 0, 0, []⟩

/-- Task `i` of `table` is an eligible waiter on `block_object`: enabled, waiting
on that object, not active and not stopped. -/
def is_eligible_waiter (table : List Task) (block_object : Nat) (i : Nat) : Bool :=
  task_enabled table i
    && (block_object_of table i == block_object && !task_active_asserted table i)
    && !task_stopped_asserted table i

/-- The indices that the loop of `scheduler_get_highest_priority_blocked` reads,
in the order it reads them, for a table of `total` entries and current task
`current_task`. -/
def scan_order (total current_task : Nat) : List Nat :=
  let c := if current_task = 0 then 1 else current_task
  if total = 2 then [1]
  else List.range' (c + 1) (total - c - 1) ++ List.range' 1 (c - 1)

/-- A three-entry table in which task 0, the current task, is running and tasks
1 and 2 wait on block object `7` with base priorities 10 and 5. -/
def strict_top_state : Sched :=
  ⟨[⟨true, true, false, 21, 21, 0, 0⟩, ⟨true, false, false, 10, 10, 7, 0⟩,
    ⟨true, false, false, 5, 5, 7, 0⟩], 0, 0, []⟩

/-- A four-entry table in which tasks 1 and 2 wait on block object `7` with the
same priority 5 and task 3 is running, for a given current task. -/
def tie_state (current_task : Nat) : Sched :=
  ⟨[⟨true, true, false, 21, 21, 0, 0⟩, ⟨true, false, false, 5, 5, 7, 0⟩,
    ⟨true, false, false, 5, 5, 7, 0⟩, ⟨true, true, false, 10, 10, 0, 0⟩],
    current_task, 0, []⟩

/-- A three-entry table in which task 1 sleeps (not active) with an empty block
object and task 2, the current task, is running. -/
def sleeper_state : Sched :=
  ⟨[⟨true, true, false, 21, 21, 0, 0⟩, ⟨true, false, false, 5, 5, 0, 0⟩,
    ⟨true, true, false, 3, 3, 0, 0⟩], 2, 0, []⟩

/-- The C function `scheduler_check_tid(id)`: `0` for an enabled slot, `-1`
otherwise. A negative `id` passes the test `id < task_get_total()` and makes
`task_enabled` read before the start of the table, which is undefined and
gives `none`. -/
def scheduler_check_tid (table : List Task) (id : Int) : Option Int :=
  if id < (task_get_total table : Int) then
    if id < 0 then none
    else if task_enabled table id.toNat then some 0
    else some (-1)
  else some (-1)

/-- A two-entry table whose slot 1 is not in use, with register `0`. -/
def disabled_slot_state : Sched :=
  ⟨[⟨true, true, false, 0, 0, 0, 0⟩, ⟨false, false, false, 0, 0, 0, 0⟩], 0, 0, []⟩

/-- The fault record `m_cortexm_fault`: the fields of its `fault` member and the
snapshots stored beside it. Pointers are natural numbers. -/
structure CortexmFault where
  /-- The fault number `fault.num`; non-zero means a fault is pending. -/
  num : Int
  /-- The faulting data address `fault.addr`. -/
  addr : Nat
  /-- The faulting instruction address `fault.pc`. -/
  pc : Nat
  /-- The caller address `fault.caller`. -/
  caller : Nat
  /-- The handler address `fault.handler_pc`. -/
  handler_pc : Nat
  /-- The handler's caller `fault.handler_caller`. -/
  handler_caller : Nat
  /-- The faulting task id `tid`. -/
  tid : Int
  /-- The snapshot `free_stack_size`. -/
  free_stack_size : Int
  /-- The snapshot `free_heap_size`. -/
  free_heap_size : Int
  deriving DecidableEq, Repr

/-- The trace event ids used by `check_faults`. -/
inductive TraceKind where
  /-- The id `POSIX_TRACE_FATAL`. -/
  | fatal
  /-- The id `POSIX_TRACE_MESSAGE`. -/
  | message
  deriving DecidableEq, Repr

/-- What `check_faults` writes to `buffer` before each emission: the format or
literal string, with the value formatted into it. -/
inductive TraceText where
  /-- The text `"fault:%d"` of the fault number. -/
  | fault (num : Int)
  /-- The text `"addr:%p"` of the fault address. -/
  | addr (addr : Nat)
  /-- The text `"caller"`. -/
  | caller
  /-- The text `"stack:%ld"` of the free stack size. -/
  | stack (size : Int)
  /-- The text `"heap:%ld"` of the free heap size. -/
  | heap (size : Int)
  /-- The text `"root pc"`. -/
  | root_pc
  /-- The text `"root caller"`. -/
  | root_caller
  deriving DecidableEq, Repr

/-- The calls made by `check_faults` and by the loop of `scheduler`. -/
inductive SysEvent where
  /-- The call `sos_trace_event_addr_tid(kind, buffer, strlen(buffer), addr, tid)`,
  with the outcome the trace collaborator had. -/
  | trace (kind : TraceKind) (text : TraceText) (addr : Nat) (tid : Int) (ok : Bool)
  /-- The call `usleep(us)`. -/
  | usleep (us : Nat)
  /-- The call `sos_debug_log_error(...)` that repeats a record on the debug output. -/
  | debug_log (text : TraceText)
  /-- The call `cortexm_svcall(svcall_fault_logged, NULL)`. -/
  | svcall_fault_logged
  /-- The call `check_faults()` made by the loop of `scheduler`. -/
  | check_faults
  /-- The call `sos_config.sleep.idle()`. -/
  | idle
  /-- The call `sched_yield()`. -/
  | sched_yield
  deriving DecidableEq, Repr

/-- The state `check_faults` works on: the fault record and the calls made so
far, oldest first. -/
structure FaultState where
  /-- The record `m_cortexm_fault`. -/
  fault : CortexmFault
  /-- The calls made so far. -/
  events : List SysEvent
  deriving DecidableEq, Repr

/-- The cast `(u32)` of a pointer or of an unsigned sum. -/
def u32 (x : Nat) : Nat := x % 4294967296

/-- One call made by `check_faults` or by the loop, appended to the record of
calls. -/
def emit (k : FaultState) (e : SysEvent) : FaultState :=
  { k with events := k.events ++ [e] }

/-- The C function `svcall_fault_logged`, run through `cortexm_svcall`. -/
def svcall_fault_logged (k : FaultState) : FaultState :=
  let k := emit k SysEvent.svcall_fault_logged
  { k with fault := { k.fault with num := 0 } }

/-- The C function `check_faults()`; `trace_ok n` is the outcome of the trace
collaborator at the emission number `n` of this call, which the code does not
look at. The new state and the returned value. -/
def check_faults (trace_ok : Nat → Bool) (k : FaultState) : FaultState × Int :=
  if k.fault.num ≠ 0 then
    let k := emit k (SysEvent.trace TraceKind.fatal (TraceText.fault k.fault.num)
      (u32 (u32 k.fault.pc + 1)) k.fault.tid (trace_ok 0))
    let k := emit k (SysEvent.usleep 2000)
    let k := emit k (SysEvent.debug_log (TraceText.fault k.fault.num))
    let k := emit k (SysEvent.trace TraceKind.fatal (TraceText.addr k.fault.addr)
      (u32 (u32 k.fault.pc + 1)) k.fault.tid (trace_ok 1))
    let k := emit k (SysEvent.usleep 2000)
    let k := emit k (SysEvent.debug_log (TraceText.addr k.fault.addr))
    let k := emit k (SysEvent.trace TraceKind.message TraceText.caller
      (u32 k.fault.caller) k.fault.tid (trace_ok 2))
    let k := emit k (SysEvent.debug_log TraceText.caller)
    let k := emit k (SysEvent.usleep 2000)
    let k := emit k (SysEvent.trace TraceKind.message
      (TraceText.stack k.fault.free_stack_size)
      (u32 (u32 k.fault.pc + 1)) k.fault.tid (trace_ok 3))
    let k := emit k (SysEvent.debug_log (TraceText.stack k.fault.free_stack_size))
    let k := emit k (SysEvent.usleep 2000)
    let k := emit k (SysEvent.trace TraceKind.message
      (TraceText.heap k.fault.free_heap_size)
      (u32 (u32 k.fault.pc + 1)) k.fault.tid (trace_ok 4))
    let k := emit k (SysEvent.debug_log (TraceText.heap k.fault.free_heap_size))
    let k := emit k (SysEvent.usleep 2000)
    let k := emit k (SysEvent.trace TraceKind.message TraceText.root_pc
      (u32 (u32 k.fault.handler_pc + 1)) k.fault.tid (trace_ok 5))
    let k := emit k (SysEvent.debug_log TraceText.root_pc)
    let k := emit k (SysEvent.usleep 2000)
    let k := emit k (SysEvent.trace TraceKind.message TraceText.root_caller
      (u32 k.fault.handler_caller) k.fault.tid (trace_ok 6))
    let k := emit k (SysEvent.debug_log TraceText.root_caller)
    let k := emit k (SysEvent.usleep 2000)
    let k := svcall_fault_logged k
    (k, 0)
  else
    (k, 0)

/-- One pass of the `while (1)` loop of `scheduler()`; `exec_count` is the value
`task_get_exec_count()` returns in this pass. -/
def scheduler_loop_body (trace_ok : Nat → Bool) (exec_count : Int) (k : FaultState) :
    FaultState :=
  let k := emit k SysEvent.check_faults
  let k := (check_faults trace_ok k).1
  if exec_count = 0 then
    emit k SysEvent.idle
  else
    emit k SysEvent.sched_yield

/-- The first `n` passes of the `while (1)` loop of `scheduler()`, numbered from
`i`; the loop itself never ends. `trace_ok j` and `exec_count j` are what the
trace collaborator and `task_get_exec_count()` answer in pass `j`. -/
def scheduler_loop (trace_ok : Nat → Nat → Bool) (exec_count : Nat → Int) :
    Nat → Nat → FaultState → FaultState
  | _, 0, k => k
  | i, n + 1, k =>
    scheduler_loop trace_ok exec_count (i + 1) n
      (scheduler_loop_body (trace_ok i) (exec_count i) k)

/-- The calls that the loop of `scheduler()` makes itself. -/
def is_loop_event : SysEvent → Bool
  | SysEvent.check_faults => true
  | SysEvent.idle => true
  | SysEvent.sched_yield => true
  | _ => false

/-- The events that are trace emissions or delays. -/
def is_trace_or_delay : SysEvent → Bool
  | SysEvent.trace _ _ _ _ _ => true
  | SysEvent.usleep _ => true
  | _ => false

/-- A pending fault: number 11 at data address 64, recorded for task 3. -/
def demo_fault : FaultState :=
  ⟨⟨11, 64, 4096, 4200, 8192, 8300, 3, 512, 2048⟩, []⟩

/-- The calls `check_faults` makes for a pending fault `f`, in order, when the
trace collaborator answers `trace_ok`. -/
def fault_report (trace_ok : Nat → Bool) (f : CortexmFault) : List SysEvent :=
  [SysEvent.trace TraceKind.fatal (TraceText.fault f.num) (u32 (u32 f.pc + 1)) f.tid
      (trace_ok 0),
    SysEvent.usleep 2000,
    SysEvent.debug_log (TraceText.fault f.num),
    SysEvent.trace TraceKind.fatal (TraceText.addr f.addr) (u32 (u32 f.pc + 1)) f.tid
      (trace_ok 1),
    SysEvent.usleep 2000,
    SysEvent.debug_log (TraceText.addr f.addr),
    SysEvent.trace TraceKind.message TraceText.caller (u32 f.caller) f.tid (trace_ok 2),
    SysEvent.debug_log TraceText.caller,
    SysEvent.usleep 2000,
    SysEvent.trace TraceKind.message (TraceText.stack f.free_stack_size)
      (u32 (u32 f.pc + 1)) f.tid (trace_ok 3),
    SysEvent.debug_log (TraceText.stack f.free_stack_size),
    SysEvent.usleep 2000,
    SysEvent.trace TraceKind.message (TraceText.heap f.free_heap_size)
      (u32 (u32 f.pc + 1)) f.tid (trace_ok 4),
    SysEvent.debug_log (TraceText.heap f.free_heap_size),
    SysEvent.usleep 2000,
    SysEvent.trace TraceKind.message TraceText.root_pc (u32 (u32 f.handler_pc + 1)) f.tid
      (trace_ok 5),
    SysEvent.debug_log TraceText.root_pc,
    SysEvent.usleep 2000,
    SysEvent.trace TraceKind.message TraceText.root_caller (u32 f.handler_caller) f.tid
      (trace_ok 6),
    SysEvent.debug_log TraceText.root_caller,
    SysEvent.usleep 2000,
    SysEvent.svcall_fault_logged]

/-- The calls the loop of `scheduler()` is to make itself in `n` passes numbered
from `i`: the fault check, then the idle hook when `task_get_exec_count()` is
`0` and `sched_yield` otherwise. -/
def expected_loop_calls (exec_count : Nat → Int) : Nat → Nat → List SysEvent
  | _, 0 => []
  | i, n + 1 =>
    SysEvent.check_faults ::
      (if exec_count i = 0 then SysEvent.idle else SysEvent.sched_yield) ::
      expected_loop_calls exec_count (i + 1) n

/-- The calls that are not debug output. -/
def is_not_debug_log : SysEvent → Bool
  | SysEvent.debug_log _ => false
  | _ => true

/-- Conversion of a C integer to `int` (two's complement, 32 bits). -/
def i32 (x : Int) : Int := (x + 2147483648) % 4294967296 - 2147483648

/-- Conversion of a C `int` to `u32`. -/
def u32_of_int (x : Int) : Nat := (x % 4294967296).toNat

/-- The calls `link_writeflash` makes and the reads it performs on the caller's
buffer. -/
inductive LinkEvent where
  /-- The read of `nbyte` bytes of the caller's buffer, from `buf + offset` on,
  done by `memcpy(wattr.buf, buf, page_size)`. -/
  | memcpy_from_buf (offset : Nat) (nbyte : Nat)
  /-- The call `link_transport_mastersettimeout(driver, ms)`. -/
  | set_timeout (ms : Nat)
  /-- The call `link_ioctl_delay(..., I_BOOTLOADER_WRITEPAGE, &wattr, 0, 0)` with
  the fields of `wattr` at that moment. -/
  | write_page (addr : Nat) (nbyte : Int) (data : List Nat)
  /-- The call `link_error("I_BOOTLOADER_WRITEPAGE failed")`. -/
  | link_error
  deriving DecidableEq, Repr

/-- The variables of `link_writeflash` that its loop changes, with the number of
page writes made and the record of calls. -/
structure WriteFlashState where
  /-- The field `wattr.addr`, a `u32`. -/
  addr : Nat
  /-- The distance of the pointer `buf` from the start of the caller's buffer. -/
  offset : Nat
  /-- The local `bytes_written`. -/
  bytes_written : Int
  /-- The number of page writes made so far. -/
  calls : Nat
  /-- The calls and reads made so far, oldest first. -/
  events : List LinkEvent
  deriving DecidableEq, Repr

/-- What `link_writeflash` returns, with the calls and reads it made. -/
structure WriteFlashResult where
  /-- The returned value. -/
  ret : Int
  /-- The calls and reads made, oldest first. -/
  events : List LinkEvent
  deriving DecidableEq, Repr

/-- The `do ... while (bytes_written < nbyte)` loop of `link_writeflash`.
`page_size_max` is `BOOTLOADER_WRITEPAGESIZE`, `ioctl_result n` is what the page
write number `n` returns, `mem i` is the byte at `buf + i` (inside the caller's
buffer for `i < nbyte`, whatever follows it in memory otherwise). `fuel` bounds
the number of passes; `none` is an exhausted budget or a `memcpy` of negative
length. -/
def writeflash_loop (page_size_max : Int) (ioctl_result : Nat → Int) (mem : Nat → Nat)
    (page_size nbyte : Int) : Nat → WriteFlashState → Option WriteFlashResult
  | 0, _ => none
  | fuel + 1, st =>
    if page_size < 0 then none
    else
      let data :=
        (List.range page_size.toNat).map (fun j => mem (st.offset + j))
          ++ List.replicate (page_size_max - page_size).toNat 255
      let events :=
        st.events ++
          [LinkEvent.memcpy_from_buf st.offset page_size.toNat,
            LinkEvent.set_timeout 5000,
            LinkEvent.write_page st.addr page_size data,
            LinkEvent.set_timeout 0]
      let err := ioctl_result st.calls
      if err < 0 then
        some ⟨err, events ++ [LinkEvent.link_error]⟩
      else
        let st1 : WriteFlashState :=
          { addr := u32 (st.addr + u32_of_int page_size),
            offset := st.offset + page_size.toNat,
            bytes_written := i32 (st.bytes_written + page_size),
            calls := st.calls + 1,
            events := events }
        if st1.bytes_written < nbyte then
          writeflash_loop page_size_max ioctl_result mem page_size nbyte fuel st1
        else
          some ⟨nbyte, events⟩

/-- The C function `link_writeflash(driver, addr, buf, nbyte)`, with
`BOOTLOADER_WRITEPAGESIZE` as the parameter `page_size_max`; the loop budget is
`nbyte + 1` passes. The debug output is left out. -/
def link_writeflash (page_size_max : Int) (ioctl_result : Nat → Int) (mem : Nat → Nat)
    (addr nbyte : Int) : Option WriteFlashResult :=
  let bytes_written : Int := 0
  let wattr_addr := u32_of_int addr
  let page_size := page_size_max
  let page_size := if page_size > nbyte then nbyte else page_size
  writeflash_loop page_size_max ioctl_result mem page_size nbyte (nbyte.toNat + 1)
    { addr := wattr_addr, offset := 0, bytes_written := bytes_written, calls := 0,
      events := [] }

/-- The reads of the caller's buffer among the events: offset and length of
each, in order. -/
def copy_ranges : List LinkEvent → List (Nat × Nat)
  | [] => []
  | LinkEvent.memcpy_from_buf offset nbyte :: rest => (offset, nbyte) :: copy_ranges rest
  | _ :: rest => copy_ranges rest

/-- The page writes among the events: address and length field of each, in
order. -/
def page_writes : List LinkEvent → List (Nat × Int)
  | [] => []
  | LinkEvent.write_page addr nbyte _ :: rest => (addr, nbyte) :: page_writes rest
  | _ :: rest => page_writes rest

/-! ## Lemmas and theorems -/

theorem s8_eq_self {x : Int} (h1 : -128 ≤ x) (h2 : x ≤ 127) : s8 x = x := by
  unfold s8; omega

theorem mem_tail_of_getElem? {table : List Task} {i : Nat} {t : Task}
    (hi : 1 ≤ i) (h : table[i]? = some t) : t ∈ table.tail := by
  cases table with
  | nil => simp at h
  | cons a rest =>
    cases i with
    | zero => omega
    | succ j =>
      simp only [List.getElem?_cons_succ] at h
      simpa using List.getElem?_mem h

theorem getElem?_of_mem_tail {table : List Task} {t : Task} (h : t ∈ table.tail) :
    ∃ i, 1 ≤ i ∧ table[i]? = some t := by
  cases table with
  | nil => simp at h
  | cons a rest =>
    simp only [List.tail_cons] at h
    obtain ⟨j, hj⟩ := List.mem_iff_getElem?.mp h
    exact ⟨j + 1, by omega, by simpa using hj⟩

/-- The fold of `update_on_stopped_body` over any list of indices computes the
largest of the start value and the priorities of the runnable tasks listed. -/
theorem update_on_stopped_fold (table : List Task) (l : List Nat) :
    ∀ init : Int, -128 ≤ init → init ≤ 127 →
      (∀ i ∈ l, task_enabled_active_not_stopped table i = true →
        task_get_priority table i ≤ 127) →
      init ≤ l.foldl (update_on_stopped_body table) init ∧
      l.foldl (update_on_stopped_body table) init ≤ 127 ∧
      (∀ i ∈ l, task_enabled_active_not_stopped table i = true →
        task_get_priority table i ≤ l.foldl (update_on_stopped_body table) init) ∧
      (l.foldl (update_on_stopped_body table) init = init ∨
        ∃ i ∈ l, task_enabled_active_not_stopped table i = true ∧
          task_get_priority table i = l.foldl (update_on_stopped_body table) init) := by
  induction l with
  | nil => intro init h1 h2 _; simp [h2]
  | cons a l ih =>
    intro init h1 h2 hb
    simp only [List.foldl_cons]
    have hb' : ∀ i ∈ l, task_enabled_active_not_stopped table i = true →
        task_get_priority table i ≤ 127 := fun i hi => hb i (List.mem_cons_of_mem _ hi)
    by_cases hq : task_enabled_active_not_stopped table a = true ∧
        task_get_priority table a > init
    · have hpa := hb a (List.mem_cons_self _ _) hq.1
      have hstep : update_on_stopped_body table init a = task_get_priority table a := by
        unfold update_on_stopped_body
        simp only [hq.1, hq.2, decide_True, Bool.and_self, if_true]
        exact s8_eq_self (by omega) hpa
      rw [hstep]
      obtain ⟨i1, i2, i3, i4⟩ := ih (task_get_priority table a) (by omega) hpa hb'
      refine ⟨by omega, i2, ?_, ?_⟩
      · intro i hi hqi
        rcases List.mem_cons.mp hi with rfl | hi
        · exact i1
        · exact i3 i hi hqi
      · right
        rcases i4 with h | ⟨i, hi, hqi, hpi⟩
        · exact ⟨a, List.mem_cons_self _ _, hq.1, h.symm⟩
        · exact ⟨i, List.mem_cons_of_mem _ hi, hqi, hpi⟩
    · have hstep : update_on_stopped_body table init a = init := by
        unfold update_on_stopped_body
        by_cases h1 : task_enabled_active_not_stopped table a = true
        · have : ¬ task_get_priority table a > init := fun h => hq ⟨h1, h⟩
          simp [h1, this]
        · simp [h1]
      rw [hstep]
      obtain ⟨i1, i2, i3, i4⟩ := ih init h1 h2 hb'
      refine ⟨i1, i2, ?_, ?_⟩
      · intro i hi hqi
        rcases List.mem_cons.mp hi with rfl | hi
        · have : ¬ task_get_priority table i > init := fun h => hq ⟨hqi, h⟩
          omega
        · exact i3 i hi hqi
      · rcases i4 with h | ⟨i, hi, hqi, hpi⟩
        · exact Or.inl h
        · exact Or.inr ⟨i, List.mem_cons_of_mem _ hi, hqi, hpi⟩

theorem update_on_stopped_priority_eq (lowest : Int) (s : Sched) :
    (scheduler_root_update_on_stopped lowest s).current_priority =
      (List.range' 1 (task_get_total s.table - 1)).foldl
        (update_on_stopped_body s.table) (s8 lowest) := rfl

theorem update_on_stopped_body_congr (t0 t0' : Task) (rest : List Task) (next : Int) (i : Nat)
    (hi : 1 ≤ i) :
    update_on_stopped_body (t0 :: rest) next i = update_on_stopped_body (t0' :: rest) next i := by
  cases i with
  | zero => omega
  | succ j =>
    simp [update_on_stopped_body, task_enabled_active_not_stopped, task_get_priority]

theorem foldl_congr_mem {α β : Type} (f g : α → β → α) (l : List β)
    (h : ∀ a, ∀ b ∈ l, f a b = g a b) : ∀ init, l.foldl f init = l.foldl g init := by
  induction l with
  | nil => intro init; rfl
  | cons b l ih =>
    intro init
    simp only [List.foldl_cons]
    rw [h init b (List.mem_cons_self _ _)]
    exact ih (fun a b hb => h a b (List.mem_cons_of_mem _ hb)) _

/-- After `scheduler_root_update_on_stopped` the register is the largest
effective priority of the runnable tasks other than task 0, or the floor, and
is never below the floor. -/
theorem update_on_stopped_is_max (lowest : Int) (s : Sched)
    (hb : PriorityBounds lowest s.table) :
    CurrentPriorityIsMax lowest (scheduler_root_update_on_stopped lowest s) ∧
    lowest ≤ (scheduler_root_update_on_stopped lowest s).current_priority := by
  obtain ⟨hl1, hl2, hbt⟩ := hb
  have hfold := update_on_stopped_fold s.table (List.range' 1 (task_get_total s.table - 1))
    (s8 lowest) (by rw [s8_eq_self hl1 hl2]; exact hl1) (by rw [s8_eq_self hl1 hl2]; exact hl2)
    (by
      intro i hi hq
      simp only [task_enabled_active_not_stopped, task_get_priority] at hq ⊢
      rcases List.mem_range'_1.mp hi with ⟨h1, _⟩
      cases hti : s.table[i]? with
      | none => simp [hti] at hq
      | some t => simp only []; exact (hbt t (mem_tail_of_getElem? h1 hti)).2)
  rw [← update_on_stopped_priority_eq, s8_eq_self hl1 hl2] at hfold
  obtain ⟨f1, _, f3, f4⟩ := hfold
  have hrange : ∀ i t, 1 ≤ i → s.table[i]? = some t →
      i ∈ List.range' 1 (task_get_total s.table - 1) := by
    intro i t h1 hti
    obtain ⟨hlt, _⟩ := List.getElem?_eq_some.mp hti
    exact List.mem_range'_1.mpr ⟨h1, by unfold task_get_total; omega⟩
  have htable : (scheduler_root_update_on_stopped lowest s).table = s.table := rfl
  unfold CurrentPriorityIsMax
  rw [htable]
  refine ⟨⟨?_, ?_⟩, f1⟩
  · intro i t h1 hti he ha hs
    have := f3 i (hrange i t h1 hti)
      (by simp [task_enabled_active_not_stopped, hti, he, ha, hs])
    simpa [task_get_priority, hti] using this
  · by_cases hex : ∃ i t, 1 ≤ i ∧ s.table[i]? = some t ∧
        t.enabled = true ∧ t.active = true ∧ t.stopped = false
    · left
      obtain ⟨i, t, h1, hti, he, ha, hs⟩ := hex
      rcases f4 with h | ⟨j, hj, hqj, hpj⟩
      · refine ⟨i, t, h1, hti, he, ha, hs, ?_⟩
        have hle := f3 i (hrange i t h1 hti)
          (by simp [task_enabled_active_not_stopped, hti, he, ha, hs])
        simp only [task_get_priority, hti] at hle
        have := (hbt t (mem_tail_of_getElem? h1 hti)).1
        omega
      · rcases List.mem_range'_1.mp hj with ⟨hj1, _⟩
        simp only [task_enabled_active_not_stopped, task_get_priority] at hqj hpj
        cases htj : s.table[j]? with
        | none => simp [htj] at hqj
        | some u =>
          simp only [htj, Bool.and_eq_true, Bool.not_eq_true'] at hqj hpj
          exact ⟨j, u, hj1, htj, hqj.1.1, hqj.1.2, hqj.2, hpj.symm⟩
    · right
      refine ⟨fun i t h1 hti hq => hex ⟨i, t, h1, hti, hq⟩, ?_⟩
      rcases f4 with h | ⟨j, hj, hqj, _⟩
      · exact h
      · exfalso
        rcases List.mem_range'_1.mp hj with ⟨hj1, _⟩
        simp only [task_enabled_active_not_stopped] at hqj
        cases htj : s.table[j]? with
        | none => simp [htj] at hqj
        | some u =>
          simp only [htj, Bool.and_eq_true, Bool.not_eq_true'] at hqj
          exact hex ⟨j, u, hj1, htj, hqj.1.1, hqj.1.2, hqj.2⟩

/-- C1: after `scheduler_root_update_on_stopped` the current-priority register
is the largest effective priority of the tasks with index in `[1, task_total)`
that are enabled, active and not stopped, and is `lowest` when there is none;
the table is untouched, the prior register value and task 0 do not influence
the result, and the context-switch request follows the register write. -/
theorem update_on_stopped_sets_max_priority (lowest : Int) (s : Sched)
    (hb : PriorityBounds lowest s.table) :
    (∀ i t, 1 ≤ i → s.table[i]? = some t →
      t.enabled = true → t.active = true → t.stopped = false →
      t.priority ≤ (scheduler_root_update_on_stopped lowest s).current_priority) ∧
    ((∃ i t, 1 ≤ i ∧ s.table[i]? = some t ∧
        t.enabled = true ∧ t.active = true ∧ t.stopped = false ∧
        (scheduler_root_update_on_stopped lowest s).current_priority = t.priority) ∨
      ((∀ i t, 1 ≤ i → s.table[i]? = some t →
          ¬ (t.enabled = true ∧ t.active = true ∧ t.stopped = false)) ∧
        (scheduler_root_update_on_stopped lowest s).current_priority = lowest)) ∧
    (scheduler_root_update_on_stopped lowest s).table = s.table ∧
    (scheduler_root_update_on_stopped lowest s).log =
      s.log ++ [Event.priority_write
        (scheduler_root_update_on_stopped lowest s).current_priority,
        Event.switch_context] ∧
    (∀ (t0 : Task) (flags0 : Task) (r : Int) (rest : List Task), s.table = t0 :: rest →
      (scheduler_root_update_on_stopped lowest
        { s with table := flags0 :: rest, current_priority := r }).current_priority =
      (scheduler_root_update_on_stopped lowest s).current_priority) := by
  obtain ⟨hmax, _⟩ := update_on_stopped_is_max lowest s hb
  refine ⟨hmax.1, hmax.2, rfl, ?_, ?_⟩
  · simp [scheduler_root_update_on_stopped, task_root_switch_context,
      task_root_set_current_priority]
  · intro t0 flags0 r rest htab
    rw [update_on_stopped_priority_eq, update_on_stopped_priority_eq]
    simp only [htab, task_get_total, List.length_cons]
    apply foldl_congr_mem
    intro a b hb
    exact update_on_stopped_body_congr _ _ _ _ _ (List.mem_range'_1.mp hb).1

theorem update_on_stopped_sets_max_priority_witness :
    PriorityBounds 0
      [⟨true, true, false, 50, 50, 0, 0⟩, ⟨true, true, false, 3, 3, 0, 0⟩,
        ⟨true, true, true, 9, 9, 0, 0⟩, ⟨true, true, false, 7, 7, 0, 0⟩] ∧
    (scheduler_root_update_on_stopped 0
      ⟨[⟨true, true, false, 50, 50, 0, 0⟩, ⟨true, true, false, 3, 3, 0, 0⟩,
        ⟨true, true, true, 9, 9, 0, 0⟩, ⟨true, true, false, 7, 7, 0, 0⟩],
        0, 31, []⟩).current_priority = 7 ∧
    (scheduler_root_update_on_stopped 0
      ⟨[⟨true, true, false, 50, 50, 0, 0⟩, ⟨true, true, false, 3, 3, 0, 0⟩,
        ⟨true, true, true, 9, 9, 0, 0⟩, ⟨true, true, false, 7, 7, 0, 0⟩],
        0, 31, []⟩).log = [Event.priority_write 7, Event.switch_context] :=
  ⟨by decide, by decide,
    (update_on_stopped_sets_max_priority 0
      ⟨[⟨true, true, false, 50, 50, 0, 0⟩, ⟨true, true, false, 3, 3, 0, 0⟩,
        ⟨true, true, true, 9, 9, 0, 0⟩, ⟨true, true, false, 7, 7, 0, 0⟩],
        0, 31, []⟩ (by decide)).2.2.2.1⟩

theorem unblock_all_body_step (B : Nat) (r : Int) (table : List Task) (st : UnblockState)
    (i : Nat) (hsame : st.table[i]? = table[i]?) :
    (∀ j, (unblock_all_body B r st i).table[j]? =
      if j = i then (st.table[j]?).map (activate_entry B r) else st.table[j]?) ∧
    (unblock_all_body B r st i).log =
      st.log ++ (if is_waiting table B i then [Event.assert_active i r] else []) ∧
    (unblock_all_body B r st i).priority = unblock_priority_step table B st.priority i := by
  cases hti : table[i]? with
  | none =>
    rw [hti] at hsame
    have hb : unblock_all_body B r st i = st := by
      simp [unblock_all_body, task_enabled, hsame]
    rw [hb]
    refine ⟨?_, ?_, ?_⟩
    · intro j
      by_cases hj : j = i
      · subst hj; simp [hsame]
      · simp [hj]
    · simp [is_waiting, task_enabled, hti]
    · simp [unblock_priority_step, is_waiting, task_enabled, hti]
  | some t =>
    rw [hti] at hsame
    have hlt : i < st.table.length := (List.getElem?_eq_some.mp hsame).1
    by_cases hw : (t.enabled && (t.block_object == B && !t.active)) = true
    · have hw' := hw
      simp only [Bool.and_eq_true, Bool.not_eq_true', beq_iff_eq] at hw'
      obtain ⟨he, hbo, ha⟩ := hw'
      refine ⟨?_, ?_, ?_⟩
      · intro j
        by_cases hj : j = i
        · subst hj
          simp [unblock_all_body, task_enabled, block_object_of, task_active_asserted,
            scheduler_root_assert_active, task_stopped_asserted, sched_priority_of,
            hsame, he, hbo, ha, activate_entry, hlt]
          split <;> simp [hlt]
        · have hji : i ≠ j := fun h => hj h.symm
          simp [unblock_all_body, task_enabled, block_object_of, task_active_asserted,
            scheduler_root_assert_active, task_stopped_asserted, sched_priority_of,
            hsame, he, hbo, ha, hj]
          split <;> simp [List.getElem?_set_ne hji]
      · simp [unblock_all_body, task_enabled, block_object_of, task_active_asserted,
          scheduler_root_assert_active, task_stopped_asserted, sched_priority_of,
          hsame, he, hbo, ha, is_waiting, hti]
        split <;> rfl
      · simp [unblock_all_body, task_enabled, block_object_of, task_active_asserted,
          scheduler_root_assert_active, task_stopped_asserted, sched_priority_of,
          hsame, he, hbo, ha, is_waiting, hti, unblock_priority_step, hlt]
        split <;> rfl
    · have hb : unblock_all_body B r st i = st := by
        simp only [unblock_all_body, task_enabled, block_object_of, task_active_asserted,
          hsame]
        by_cases he : t.enabled = true
        · simp only [he, Bool.true_and] at hw
          simp [he, hw]
        · simp [he]
      rw [hb]
      refine ⟨?_, ?_, ?_⟩
      · intro j
        by_cases hj : j = i
        · subst hj; simp [hsame, activate_entry, hw]
        · simp [hj]
      · simp [is_waiting, task_enabled, block_object_of, task_active_asserted, hti, hw]
      · simp [unblock_priority_step, is_waiting, task_enabled, block_object_of,
          task_active_asserted, hti, hw]

/-- The loop of `scheduler_root_unblock_all` over `a, ..., a + k - 1`: what it
leaves in the table, in the log and in the local `priority`. -/
theorem unblock_all_fold (B : Nat) (r : Int) (table : List Task) (p0 : Int)
    (log0 : List Event) (a : Nat) : ∀ k : Nat,
    (∀ j, ((List.range' a k).foldl (unblock_all_body B r) ⟨table, p0, log0⟩).table[j]? =
      if a ≤ j ∧ j < a + k then (table[j]?).map (activate_entry B r) else table[j]?) ∧
    ((List.range' a k).foldl (unblock_all_body B r) ⟨table, p0, log0⟩).log =
      log0 ++ ((List.range' a k).filter (is_waiting table B)).map
        (fun i => Event.assert_active i r) ∧
    ((List.range' a k).foldl (unblock_all_body B r) ⟨table, p0, log0⟩).priority =
      (List.range' a k).foldl (unblock_priority_step table B) p0 := by
  intro k
  induction k with
  | zero =>
    refine ⟨?_, ?_, ?_⟩
    · intro j
      have : ¬ (a ≤ j ∧ j < a) := by omega
      simp [this]
    · simp
    · simp
  | succ k ih =>
    obtain ⟨ih1, ih2, ih3⟩ := ih
    rw [List.range'_1_concat, List.foldl_append, List.foldl_append]
    simp only [List.foldl_cons, List.foldl_nil]
    have hsame : ((List.range' a k).foldl (unblock_all_body B r)
        ⟨table, p0, log0⟩).table[a + k]? = table[a + k]? := by
      rw [ih1]
      have : ¬ (a ≤ a + k ∧ a + k < a + k) := by omega
      simp [this]
    obtain ⟨s1, s2, s3⟩ := unblock_all_body_step B r table
      ((List.range' a k).foldl (unblock_all_body B r) ⟨table, p0, log0⟩) (a + k) hsame
    refine ⟨?_, ?_, ?_⟩
    · intro j
      rw [s1 j, ih1 j]
      by_cases hj : j = a + k
      · subst hj
        have h1 : ¬ (a ≤ a + k ∧ a + k < a + k) := by omega
        have h2 : a ≤ a + k ∧ a + k < a + (k + 1) := by omega
        simp [h1, h2]
      · by_cases hin : a ≤ j ∧ j < a + k
        · have h2 : a ≤ j ∧ j < a + (k + 1) := by omega
          simp [hj, hin, h2]
        · have h2 : ¬ (a ≤ j ∧ j < a + (k + 1)) := by omega
          simp [hj, hin, h2]
    · rw [s2, ih2, List.filter_append, List.map_append, List.append_assoc]
      congr 1
      by_cases hw : is_waiting table B (a + k) = true
      · simp [List.filter, hw]
      · simp [List.filter, hw]
    · rw [s3, ih3]

/-- The fold of `unblock_priority_step` over any list of indices computes the
largest of the start value and the base priorities of the waiters listed that
are not stopped. -/
theorem unblock_priority_fold (table : List Task) (B : Nat) (l : List Nat) :
    ∀ init : Int,
      init ≤ l.foldl (unblock_priority_step table B) init ∧
      (∀ i ∈ l, is_waiting table B i = true → task_stopped_asserted table i = false →
        sched_priority_of table i ≤ l.foldl (unblock_priority_step table B) init) ∧
      (l.foldl (unblock_priority_step table B) init = init ∨
        ∃ i ∈ l, is_waiting table B i = true ∧ task_stopped_asserted table i = false ∧
          sched_priority_of table i = l.foldl (unblock_priority_step table B) init) := by
  induction l with
  | nil => intro init; simp
  | cons a l ih =>
    intro init
    simp only [List.foldl_cons]
    by_cases hq : (is_waiting table B a = true ∧ task_stopped_asserted table a = false) ∧
        sched_priority_of table a > init
    · have hstep : unblock_priority_step table B init a = sched_priority_of table a := by
        simp [unblock_priority_step, hq.1.1, hq.1.2, hq.2]
      rw [hstep]
      obtain ⟨i1, i3, i4⟩ := ih (sched_priority_of table a)
      refine ⟨by omega, ?_, ?_⟩
      · intro i hi hw hs
        rcases List.mem_cons.mp hi with rfl | hi
        · exact i1
        · exact i3 i hi hw hs
      · right
        rcases i4 with h | ⟨i, hi, hw, hs, hp⟩
        · exact ⟨a, List.mem_cons_self _ _, hq.1.1, hq.1.2, h.symm⟩
        · exact ⟨i, List.mem_cons_of_mem _ hi, hw, hs, hp⟩
    · have hstep : unblock_priority_step table B init a = init := by
        unfold unblock_priority_step
        by_cases h1 : is_waiting table B a = true ∧ task_stopped_asserted table a = false
        · have : ¬ sched_priority_of table a > init := fun h => hq ⟨h1, h⟩
          simp [h1.1, h1.2, this]
        · by_cases hw : is_waiting table B a = true
          · have : task_stopped_asserted table a = true := by
              cases hs : task_stopped_asserted table a
              · exact absurd ⟨hw, hs⟩ h1
              · rfl
            simp [hw, this]
          · simp [hw]
      rw [hstep]
      obtain ⟨i1, i3, i4⟩ := ih init
      refine ⟨i1, ?_, ?_⟩
      · intro i hi hw hs
        rcases List.mem_cons.mp hi with rfl | hi
        · have : ¬ sched_priority_of table i > init := fun h => hq ⟨⟨hw, hs⟩, h⟩
          omega
        · exact i3 i hi hw hs
      · rcases i4 with h | ⟨i, hi, hw, hs, hp⟩
        · exact Or.inl h
        · exact Or.inr ⟨i, List.mem_cons_of_mem _ hi, hw, hs, hp⟩

theorem is_waiting_iff (table : List Task) (B : Nat) (i : Nat) :
    is_waiting table B i = true ↔
      ∃ t, table[i]? = some t ∧ t.enabled = true ∧ t.active = false ∧ t.block_object = B := by
  unfold is_waiting task_enabled block_object_of task_active_asserted
  cases h : table[i]? with
  | none => simp
  | some t =>
    simp only [Bool.and_eq_true, Bool.not_eq_true', beq_iff_eq, Option.some.injEq,
      exists_eq_left']
    constructor
    · rintro ⟨h1, h2, h3⟩; exact ⟨h1, h3, h2⟩
    · rintro ⟨h1, h3, h2⟩; exact ⟨h1, h2, h3⟩

theorem unblock_all_table (lowest : Int) (s : Sched) (B : Nat) (r : Int) (j : Nat) :
    (scheduler_root_unblock_all lowest s B r).1.table[j]? =
      if 1 ≤ j then (s.table[j]?).map (activate_entry B r) else s.table[j]? := by
  have h := (unblock_all_fold B r s.table (lowest - 1) s.log 1
    (task_get_total s.table - 1)).1 j
  simp only [scheduler_root_unblock_all]
  rw [h]
  by_cases h1 : 1 ≤ j
  · by_cases h2 : j < 1 + (task_get_total s.table - 1)
    · simp [h1, h2]
    · have hnone : s.table[j]? = none := by
        apply List.getElem?_eq_none
        unfold task_get_total at h2
        omega
      simp [h1, h2, hnone]
  · simp [h1]

theorem unblock_all_log (lowest : Int) (s : Sched) (B : Nat) (r : Int) :
    (scheduler_root_unblock_all lowest s B r).1.log =
      s.log ++ ((List.range' 1 (task_get_total s.table - 1)).filter
        (is_waiting s.table B)).map (fun i => Event.assert_active i r) :=
  (unblock_all_fold B r s.table (lowest - 1) s.log 1 (task_get_total s.table - 1)).2.1

theorem unblock_all_result (lowest : Int) (s : Sched) (B : Nat) (r : Int) :
    (scheduler_root_unblock_all lowest s B r).2 =
      (List.range' 1 (task_get_total s.table - 1)).foldl
        (unblock_priority_step s.table B) (lowest - 1) :=
  (unblock_all_fold B r s.table (lowest - 1) s.log 1 (task_get_total s.table - 1)).2.2

/-- C5: `scheduler_root_unblock_all(B, reason)` marks active, with `reason` as
unblock type, exactly the tasks of index at least 1 that were enabled, not
active and waiting on `B` (stopped or not); it issues one activation for each
of them and no other effect, leaves every other entry (task 0 included), the
register and the current task unchanged, and changes nothing when `B` has no
waiter. -/
theorem unblock_all_activates_exactly_waiters (lowest : Int) (s : Sched) (B : Nat)
    (r : Int) :
    (scheduler_root_unblock_all lowest s B r).1.table.length = s.table.length ∧
    (∀ i t, 1 ≤ i → s.table[i]? = some t →
      t.enabled = true → t.active = false → t.block_object = B →
      (scheduler_root_unblock_all lowest s B r).1.table[i]? =
        some { t with active := true, unblock_type := r }) ∧
    (∀ i t, s.table[i]? = some t →
      (i = 0 ∨ t.enabled = false ∨ t.active = true ∨ t.block_object ≠ B) →
      (scheduler_root_unblock_all lowest s B r).1.table[i]? = some t) ∧
    (∃ evs : List Event,
      (scheduler_root_unblock_all lowest s B r).1.log = s.log ++ evs ∧ evs.Nodup ∧
      ∀ e, e ∈ evs ↔ ∃ i t, 1 ≤ i ∧ s.table[i]? = some t ∧
        t.enabled = true ∧ t.active = false ∧ t.block_object = B ∧
        e = Event.assert_active i r) ∧
    ((∀ i t, 1 ≤ i → s.table[i]? = some t →
        ¬ (t.enabled = true ∧ t.active = false ∧ t.block_object = B)) →
      (scheduler_root_unblock_all lowest s B r).1 = s) ∧
    (scheduler_root_unblock_all lowest s B r).1.current_task = s.current_task ∧
    (scheduler_root_unblock_all lowest s B r).1.current_priority = s.current_priority := by
  have htab := unblock_all_table lowest s B r
  have hlog := unblock_all_log lowest s B r
  have hkeep : ∀ i t, s.table[i]? = some t →
      (i = 0 ∨ t.enabled = false ∨ t.active = true ∨ t.block_object ≠ B) →
      (scheduler_root_unblock_all lowest s B r).1.table[i]? = some t := by
    intro i t hti hcase
    rw [htab i, hti]
    by_cases h1 : 1 ≤ i
    · have hne : (t.enabled && (t.block_object == B && !t.active)) = false := by
        rcases hcase with h | h | h | h
        · omega
        · simp [h]
        · simp [h]
        · simp [h]
      simp [h1, activate_entry, hne]
    · simp [h1]
  have hmem : ∀ e, e ∈ ((List.range' 1 (task_get_total s.table - 1)).filter
        (is_waiting s.table B)).map (fun i => Event.assert_active i r) ↔
      ∃ i t, 1 ≤ i ∧ s.table[i]? = some t ∧
        t.enabled = true ∧ t.active = false ∧ t.block_object = B ∧
        e = Event.assert_active i r := by
    intro e
    simp only [List.mem_map, List.mem_filter, List.mem_range'_1, is_waiting_iff]
    constructor
    · rintro ⟨i, ⟨⟨h1, _⟩, t, hti, he, ha, hb⟩, rfl⟩
      exact ⟨i, t, h1, hti, he, ha, hb, rfl⟩
    · rintro ⟨i, t, h1, hti, he, ha, hb, rfl⟩
      have hlt := (List.getElem?_eq_some.mp hti).1
      exact ⟨i, ⟨⟨h1, by unfold task_get_total; omega⟩, t, hti, he, ha, hb⟩, rfl⟩
  refine ⟨?_, ?_, hkeep, ?_, ?_, rfl, rfl⟩
  · by_contra hne
    rcases Nat.lt_or_gt_of_ne hne with hlt | hgt
    · have h1 := htab ((scheduler_root_unblock_all lowest s B r).1.table.length)
      rw [List.getElem?_eq_none (Nat.le_refl _)] at h1
      have h2 : s.table[(scheduler_root_unblock_all lowest s B r).1.table.length]? = none :=
        by
          split at h1
          · simpa using h1.symm
          · exact h1.symm
      have := List.getElem?_eq_none_iff.mp h2
      omega
    · have h1 := htab s.table.length
      rw [List.getElem?_eq_none (l := s.table) (Nat.le_refl _)] at h1
      simp only [Option.map_none', ite_self] at h1
      have := List.getElem?_eq_none_iff.mp h1
      omega
  · intro i t h1 hti he ha hb
    rw [htab i, hti]
    simp [h1, activate_entry, he, ha, hb]
  · refine ⟨_, hlog, ?_, hmem⟩
    apply List.Nodup.map
    · intro a b hab
      simpa using hab
    · exact (List.nodup_range' 1 _).filter _
  · intro hnone
    have ht : (scheduler_root_unblock_all lowest s B r).1.table = s.table := by
      apply List.ext_getElem?
      intro j
      cases htj : s.table[j]? with
      | none => rw [htab j, htj]; simp
      | some t =>
        apply hkeep j t htj
        by_cases h1 : 1 ≤ j
        · have := hnone j t h1 htj
          by_cases he : t.enabled = true
          · by_cases ha : t.active = false
            · right; right; right
              intro hb
              exact this ⟨he, ha, hb⟩
            · right; right; left; simpa using ha
          · right; left; simpa using he
        · left; omega
    have hl : (scheduler_root_unblock_all lowest s B r).1.log = s.log := by
      rw [hlog]
      have : (List.range' 1 (task_get_total s.table - 1)).filter (is_waiting s.table B) = [] := by
        rw [List.filter_eq_nil_iff]
        intro i hi hw
        obtain ⟨t, hti, he, ha, hb⟩ := (is_waiting_iff _ _ _).mp hw
        exact hnone i t (List.mem_range'_1.mp hi).1 hti ⟨he, ha, hb⟩
      simp [this]
    have hs : (scheduler_root_unblock_all lowest s B r).1 =
        { s with table := (scheduler_root_unblock_all lowest s B r).1.table,
                 log := (scheduler_root_unblock_all lowest s B r).1.log } := rfl
    rw [hs, ht, hl]

/-- C6: the value returned by `scheduler_root_unblock_all(B, reason)` is the
largest base priority among the tasks the call activated that are not stopped,
and is `lowest - 1` when it activated no such task. -/
theorem unblock_all_returns_max_priority (lowest : Int) (s : Sched) (B : Nat) (r : Int)
    (hb : BasePriorityBounds lowest s.table) :
    (∀ i t, 1 ≤ i → s.table[i]? = some t →
      t.enabled = true → t.active = false → t.block_object = B → t.stopped = false →
      t.sched_priority ≤ (scheduler_root_unblock_all lowest s B r).2) ∧
    ((∃ i t, 1 ≤ i ∧ s.table[i]? = some t ∧
        t.enabled = true ∧ t.active = false ∧ t.block_object = B ∧ t.stopped = false ∧
        (scheduler_root_unblock_all lowest s B r).2 = t.sched_priority) ∨
      ((∀ i t, 1 ≤ i → s.table[i]? = some t →
          ¬ (t.enabled = true ∧ t.active = false ∧ t.block_object = B ∧
            t.stopped = false)) ∧
        (scheduler_root_unblock_all lowest s B r).2 = lowest - 1)) := by
  obtain ⟨f1, f3, f4⟩ := unblock_priority_fold s.table B
    (List.range' 1 (task_get_total s.table - 1)) (lowest - 1)
  rw [← unblock_all_result lowest s B r] at f1 f3 f4
  have hrange : ∀ i t, 1 ≤ i → s.table[i]? = some t →
      i ∈ List.range' 1 (task_get_total s.table - 1) := by
    intro i t h1 hti
    obtain ⟨hlt, _⟩ := List.getElem?_eq_some.mp hti
    exact List.mem_range'_1.mpr ⟨h1, by unfold task_get_total; omega⟩
  have hle : ∀ i t, 1 ≤ i → s.table[i]? = some t →
      t.enabled = true → t.active = false → t.block_object = B → t.stopped = false →
      t.sched_priority ≤ (scheduler_root_unblock_all lowest s B r).2 := by
    intro i t h1 hti he ha hbo hs
    have := f3 i (hrange i t h1 hti) ((is_waiting_iff _ _ _).mpr ⟨t, hti, he, ha, hbo⟩)
      (by simp [task_stopped_asserted, hti, hs])
    simpa [sched_priority_of, hti] using this
  have hback : ∀ j, j ∈ List.range' 1 (task_get_total s.table - 1) →
      is_waiting s.table B j = true → task_stopped_asserted s.table j = false →
      ∃ t, 1 ≤ j ∧ s.table[j]? = some t ∧ t.enabled = true ∧ t.active = false ∧
        t.block_object = B ∧ t.stopped = false ∧ sched_priority_of s.table j = t.sched_priority := by
    intro j hj hw hs
    obtain ⟨t, hti, he, ha, hbo⟩ := (is_waiting_iff _ _ _).mp hw
    refine ⟨t, (List.mem_range'_1.mp hj).1, hti, he, ha, hbo, ?_, ?_⟩
    · simpa [task_stopped_asserted, hti] using hs
    · simp [sched_priority_of, hti]
  refine ⟨hle, ?_⟩
  by_cases hex : ∃ i t, 1 ≤ i ∧ s.table[i]? = some t ∧
      t.enabled = true ∧ t.active = false ∧ t.block_object = B ∧ t.stopped = false
  · left
    obtain ⟨i, t, h1, hti, he, ha, hbo, hs⟩ := hex
    rcases f4 with h | ⟨j, hj, hw, hsj, hpj⟩
    · refine ⟨i, t, h1, hti, he, ha, hbo, hs, ?_⟩
      have h2 := hle i t h1 hti he ha hbo hs
      have h3 := hb t (mem_tail_of_getElem? h1 hti)
      omega
    · obtain ⟨u, hj1, htj, he', ha', hbo', hs', hp'⟩ := hback j hj hw hsj
      exact ⟨j, u, hj1, htj, he', ha', hbo', hs', by rw [← hpj, hp']⟩
  · right
    refine ⟨fun i t h1 hti hq => hex ⟨i, t, h1, hti, hq⟩, ?_⟩
    rcases f4 with h | ⟨j, hj, hw, hsj, _⟩
    · exact h
    · exfalso
      obtain ⟨u, hj1, htj, he', ha', hbo', hs', _⟩ := hback j hj hw hsj
      exact hex ⟨j, u, hj1, htj, he', ha', hbo', hs'⟩

theorem priority_bounds_of_same {lowest : Int} {table table1 : List Task}
    (h : ∀ j : Nat, (table1[j]?).map Task.priority = (table[j]?).map Task.priority)
    (hb : PriorityBounds lowest table) : PriorityBounds lowest table1 := by
  obtain ⟨h1, h2, h3⟩ := hb
  refine ⟨h1, h2, ?_⟩
  intro t ht
  obtain ⟨i, hi, hti⟩ := getElem?_of_mem_tail ht
  have hj := h i
  rw [hti] at hj
  cases hu : table[i]? with
  | none => rw [hu] at hj; simp at hj
  | some u =>
    rw [hu] at hj
    simp only [Option.map_some', Option.some.injEq] at hj
    rw [hj]
    exact h3 u (mem_tail_of_getElem? hi hu)

theorem deassert_active_priority (table : List Task) (c j : Nat) :
    ((scheduler_root_deassert_active table c)[j]?).map Task.priority =
      (table[j]?).map Task.priority := by
  unfold scheduler_root_deassert_active
  cases hc : table[c]? with
  | none => rfl
  | some t =>
    simp only []
    by_cases hj : c = j
    · subst hj
      have hlt := (List.getElem?_eq_some.mp hc).1
      simp [hc, hlt]
    · rw [List.getElem?_set_ne hj]

theorem unblock_all_priority (lowest : Int) (s : Sched) (B : Nat) (r : Int) (j : Nat) :
    ((scheduler_root_unblock_all lowest s B r).1.table[j]?).map Task.priority =
      (s.table[j]?).map Task.priority := by
  rw [unblock_all_table]
  by_cases h1 : 1 ≤ j
  · simp only [h1, if_true]
    cases s.table[j]? with
    | none => rfl
    | some t =>
      simp only [Option.map_some', activate_entry]
      split <;> rfl
  · simp [h1]

theorem update_on_wake_cases (s : Sched) (id new_priority : Int) (s1 : Sched)
    (h : scheduler_root_update_on_wake s id new_priority = some s1) :
    s1 = s ∨ (s.current_priority ≤ new_priority ∧
      s1 = task_root_switch_context (task_root_elevate_current_priority s new_priority)) := by
  unfold scheduler_root_update_on_wake at h
  by_cases h1 : new_priority < s.current_priority
  · simp only [h1, if_true, Option.some.injEq] at h
    exact Or.inl h.symm
  · simp only [h1, if_false] at h
    by_cases h2 : id > 0
    · simp only [h2, if_true] at h
      cases ht : s.table[id.toNat]? with
      | none => simp [ht] at h
      | some t =>
        simp only [ht] at h
        by_cases h3 : t.stopped = true
        · simp only [h3, if_true, Option.some.injEq] at h
          exact Or.inl h.symm
        · have h4 : t.stopped = false := by simpa using h3
          simp only [h4, Bool.false_eq_true, if_false, Option.some.injEq] at h
          exact Or.inr ⟨by omega, h.symm⟩
    · simp only [h2, if_false, Option.some.injEq] at h
      exact Or.inr ⟨by omega, h.symm⟩

theorem elevate_table (s : Sched) (v : Int) :
    (task_root_switch_context (task_root_elevate_current_priority s v)).table = s.table := by
  unfold task_root_elevate_current_priority task_root_switch_context
    task_root_set_current_priority
  split <;> rfl

theorem elevate_priority (s : Sched) (v : Int) :
    (task_root_switch_context (task_root_elevate_current_priority s v)).current_priority =
      max s.current_priority v := by
  unfold task_root_elevate_current_priority task_root_switch_context
    task_root_set_current_priority
  split
  · simp only []; omega
  · simp only []; omega

/-- Each operation keeps the priorities in range and the register at or above
the floor. -/
theorem step_preserves (lowest : Int) (s s1 : Sched) (op : Op)
    (hb : PriorityBounds lowest s.table) (hlow : lowest ≤ s.current_priority)
    (h : step lowest s op = some s1) :
    PriorityBounds lowest s1.table ∧ lowest ≤ s1.current_priority := by
  cases op with
  | update_on_stopped =>
    simp only [step, Option.some.injEq] at h
    subst h
    exact ⟨hb, (update_on_stopped_is_max lowest s hb).2⟩
  | update_on_sleep =>
    simp only [step, Option.some.injEq] at h
    subst h
    have hb1 : PriorityBounds lowest (scheduler_root_deassert_active s.table s.current_task) :=
      priority_bounds_of_same (deassert_active_priority s.table s.current_task) hb
    exact ⟨hb1, (update_on_stopped_is_max lowest _ hb1).2⟩
  | update_on_wake id new_priority =>
    simp only [step] at h
    rcases update_on_wake_cases s id new_priority s1 h with rfl | ⟨_, rfl⟩
    · exact ⟨hb, hlow⟩
    · rw [elevate_table, elevate_priority]
      exact ⟨hb, by omega⟩
  | unblock_all B r =>
    simp only [step, Option.some.injEq] at h
    subst h
    exact ⟨priority_bounds_of_same (unblock_all_priority lowest s B r) hb, hlow⟩

theorem run_preserves (lowest : Int) (ops : List Op) : ∀ (s s1 : Sched),
    PriorityBounds lowest s.table → lowest ≤ s.current_priority →
    run lowest s ops = some s1 →
    PriorityBounds lowest s1.table ∧ lowest ≤ s1.current_priority := by
  induction ops with
  | nil =>
    intro s s1 hb hlow h
    simp only [run, Option.some.injEq] at h
    subst h
    exact ⟨hb, hlow⟩
  | cons op ops ih =>
    intro s s1 hb hlow h
    simp only [run] at h
    cases hs : step lowest s op with
    | none => simp [hs] at h
    | some s2 =>
      rw [hs] at h
      simp only [Option.some_bind] at h
      obtain ⟨hb2, hlow2⟩ := step_preserves lowest s s2 op hb hlow hs
      exact ih s2 s1 hb2 hlow2 h

/-- C2 (as amended): in every state reachable from a freshly recomputed state by
the four operations, a call of `scheduler_root_update_on_stopped` or of
`scheduler_root_update_on_sleep` makes the register the largest effective
priority among the runnable tasks other than task 0 (the floor when there is
none), and the register is never below the floor. -/
theorem recompute_restores_current_priority (lowest : Int) (s0 : Sched) (ops : List Op)
    (s : Sched) (hb : PriorityBounds lowest s0.table)
    (hrun : run lowest (scheduler_root_update_on_stopped lowest s0) ops = some s) :
    CurrentPriorityIsMax lowest (scheduler_root_update_on_stopped lowest s) ∧
    CurrentPriorityIsMax lowest (scheduler_root_update_on_sleep lowest s) ∧
    (ops = [] → CurrentPriorityIsMax lowest s) ∧
    lowest ≤ s.current_priority := by
  obtain ⟨hbs, hlow⟩ := run_preserves lowest ops
    (scheduler_root_update_on_stopped lowest s0) s hb
    (update_on_stopped_is_max lowest s0 hb).2 hrun
  refine ⟨(update_on_stopped_is_max lowest s hbs).1, ?_, ?_, hlow⟩
  · have hb1 : PriorityBounds lowest (scheduler_root_deassert_active s.table s.current_task) :=
      priority_bounds_of_same (deassert_active_priority s.table s.current_task) hbs
    exact (update_on_stopped_is_max lowest
      { s with
        table := scheduler_root_deassert_active s.table s.current_task,
        log := s.log ++ [Event.deassert_active s.current_task] } hb1).1
  · intro hnil
    subst hnil
    simp only [run, Option.some.injEq] at hrun
    subst hrun
    exact (update_on_stopped_is_max lowest s0 hb).1

theorem recompute_restores_current_priority_witness :
    PriorityBounds 0 (demo_state 0).table ∧
    run 0 (scheduler_root_update_on_stopped 0 (demo_state 0))
      [Op.unblock_all 7 2, Op.update_on_wake 3 10] =
      some ⟨[⟨true, true, false, 21, 21, 0, 0⟩, ⟨true, true, false, 5, 5, 7, 2⟩,
        ⟨true, true, false, 5, 5, 7, 2⟩, ⟨true, true, false, 10, 10, 7, 2⟩], 0, 10,
        [Event.priority_write 0, Event.switch_context, Event.assert_active 1 2,
          Event.assert_active 2 2, Event.assert_active 3 2, Event.priority_write 10,
          Event.switch_context]⟩ ∧
    CurrentPriorityIsMax 0 (scheduler_root_update_on_stopped 0
      ⟨[⟨true, true, false, 21, 21, 0, 0⟩, ⟨true, true, false, 5, 5, 7, 2⟩,
        ⟨true, true, false, 5, 5, 7, 2⟩, ⟨true, true, false, 10, 10, 7, 2⟩], 0, 10,
        [Event.priority_write 0, Event.switch_context, Event.assert_active 1 2,
          Event.assert_active 2 2, Event.assert_active 3 2, Event.priority_write 10,
          Event.switch_context]⟩) :=
  ⟨by decide, by decide,
    (recompute_restores_current_priority 0 (demo_state 0)
      [Op.unblock_all 7 2, Op.update_on_wake 3 10] _ (by decide) (by decide)).1⟩

/-- C2 as stated fails: after `scheduler_root_update_on_stopped` on the scenario
table (register 0) and then `scheduler_root_unblock_all(7, 2)`, tasks 1, 2 and 3
are runnable with priorities 5, 5 and 10 while the register is still 0. -/
theorem unblock_all_breaks_current_priority_invariant :
    PriorityBounds 0 (demo_state 0).table ∧
    ¬ (∀ s, run 0 (scheduler_root_update_on_stopped 0 (demo_state 0))
        [Op.unblock_all 7 2] = some s → CurrentPriorityIsMax 0 s) := by
  refine ⟨by decide, fun h => ?_⟩
  have h1 := (h ⟨[⟨true, true, false, 21, 21, 0, 0⟩, ⟨true, true, false, 5, 5, 7, 2⟩,
      ⟨true, true, false, 5, 5, 7, 2⟩, ⟨true, true, false, 10, 10, 7, 2⟩], 0, 0,
      [Event.priority_write 0, Event.switch_context, Event.assert_active 1 2,
        Event.assert_active 2 2, Event.assert_active 3 2]⟩ (by decide)).1
    3 ⟨true, true, false, 10, 10, 7, 2⟩ (by decide) (by decide) rfl rfl rfl
  exact absurd h1 (by decide)

theorem update_on_wake_proceeds (s : Sched) (id p : Int)
    (h1 : ¬ p < s.current_priority)
    (h2 : id ≤ 0 ∨ ∃ t, s.table[id.toNat]? = some t ∧ t.stopped = false) :
    scheduler_root_update_on_wake s id p =
      some (task_root_switch_context (task_root_elevate_current_priority s p)) := by
  unfold scheduler_root_update_on_wake
  simp only [h1, if_false]
  by_cases hid : id > 0
  · rcases h2 with h | ⟨t, ht, hs⟩
    · omega
    · simp [hid, ht, hs]
  · simp [hid]

theorem update_on_wake_defined (s : Sched) (id p : Int)
    (hdef : id ≤ 0 ∨ id.toNat < s.table.length ∨ p < s.current_priority) :
    ∃ s1, scheduler_root_update_on_wake s id p = some s1 := by
  unfold scheduler_root_update_on_wake
  by_cases h1 : p < s.current_priority
  · exact ⟨s, by simp [h1]⟩
  · by_cases hid : id > 0
    · have hlt : id.toNat < s.table.length := by
        rcases hdef with h | h | h
        · omega
        · exact h
        · exact absurd h h1
      simp only [h1, hid, if_false, if_true, List.getElem?_eq_getElem hlt]
      split
      · exact ⟨_, rfl⟩
      · exact ⟨_, rfl⟩
    · simp [h1, hid]

/-- C7 (as amended): when `new_priority` is below the current priority,
`scheduler_root_update_on_wake` changes nothing and requests no context switch;
when `new_priority` is at most the current priority the register and the table
are unchanged. -/
theorem update_on_wake_lower_priority (s : Sched) (id new_priority : Int)
    (h : new_priority ≤ s.current_priority) :
    (new_priority < s.current_priority →
      scheduler_root_update_on_wake s id new_priority = some s) ∧
    ((id ≤ 0 ∨ id.toNat < s.table.length) →
      ∃ s1, scheduler_root_update_on_wake s id new_priority = some s1 ∧
        s1.current_priority = s.current_priority ∧ s1.table = s.table) := by
  constructor
  · intro hlt
    simp [scheduler_root_update_on_wake, hlt]
  · intro hdef
    obtain ⟨s1, hs1⟩ := update_on_wake_defined s id new_priority
      (by rcases hdef with h | h
          · exact Or.inl h
          · exact Or.inr (Or.inl h))
    refine ⟨s1, hs1, ?_⟩
    rcases update_on_wake_cases s id new_priority s1 hs1 with rfl | ⟨_, rfl⟩
    · exact ⟨rfl, rfl⟩
    · rw [elevate_priority, elevate_table]
      exact ⟨by omega, rfl⟩

theorem update_on_wake_lower_priority_witness :
    (-1 : Int) ≤ (demo_state 0).current_priority ∧
    scheduler_root_update_on_wake (demo_state 0) 3 (-1) = some (demo_state 0) :=
  ⟨by decide,
    (update_on_wake_lower_priority (demo_state 0) 3 (-1) (by decide)).1 (by decide)⟩

/-- C7 as stated fails: with `new_priority` equal to the current priority (both
`0`) and a target that is not stopped, `scheduler_root_update_on_wake` issues a
context-switch request. -/
theorem update_on_wake_equal_priority_requests_switch :
    (0 : Int) ≤ (demo_state 0).current_priority ∧
    (scheduler_root_update_on_wake (demo_state 0) 1 0).map Sched.log =
      some [Event.switch_context] := by
  decide

/-- C8 (as amended): for a target `id > 0` whose stopped flag is set,
`scheduler_root_update_on_wake` is ignored whatever `new_priority` is: the
state, register and log included, is unchanged. -/
theorem update_on_wake_stopped_ignored (s : Sched) (id new_priority : Int) (t : Task)
    (hid : 0 < id) (ht : s.table[id.toNat]? = some t) (hs : t.stopped = true) :
    scheduler_root_update_on_wake s id new_priority = some s := by
  unfold scheduler_root_update_on_wake
  by_cases h1 : new_priority < s.current_priority
  · simp [h1]
  · simp [h1, hid, ht, hs]

theorem update_on_wake_stopped_ignored_witness :
    scheduler_root_update_on_wake
      ⟨[⟨true, true, false, 0, 0, 0, 0⟩, ⟨true, false, true, 4, 4, 0, 0⟩], 0, 0, []⟩ 1 9 =
      some ⟨[⟨true, true, false, 0, 0, 0, 0⟩, ⟨true, false, true, 4, 4, 0, 0⟩], 0, 0, []⟩ :=
  update_on_wake_stopped_ignored
    ⟨[⟨true, true, false, 0, 0, 0, 0⟩, ⟨true, false, true, 4, 4, 0, 0⟩], 0, 0, []⟩ 1 9
    ⟨true, false, true, 4, 4, 0, 0⟩ (by decide) (by decide) rfl

/-- C8 as stated fails: task 0 has its stopped flag set, yet
`scheduler_root_update_on_wake(0, 5)` raises the register from 0 to 5 and issues
a context-switch request. -/
theorem update_on_wake_stopped_task_zero_not_ignored :
    task_stopped_asserted stopped_scheduler_state.table 0 = true ∧
    scheduler_root_update_on_wake stopped_scheduler_state 0 5 =
      some { stopped_scheduler_state with
        current_priority := 5,
        log := [Event.priority_write 5, Event.switch_context] } := by
  decide

/-- C9 (as amended): when `new_priority` is above the current priority and the
target is not stopped (it is task 0 or below, whose flag is not read, or a task
of the table whose stopped flag is clear), `scheduler_root_update_on_wake` writes
`new_priority` to the current-priority register and then issues a
context-switch request; the task table, the target's effective priority
included, is unchanged. -/
theorem update_on_wake_raises_register (s : Sched) (id new_priority : Int)
    (h : s.current_priority < new_priority)
    (ht : id ≤ 0 ∨ ∃ t, s.table[id.toNat]? = some t ∧ t.stopped = false) :
    scheduler_root_update_on_wake s id new_priority =
      some { s with
        current_priority := new_priority,
        log := s.log ++ [Event.priority_write new_priority, Event.switch_context] } := by
  rw [update_on_wake_proceeds s id new_priority (by omega) ht]
  simp [task_root_switch_context, task_root_elevate_current_priority,
    task_root_set_current_priority, h]

theorem update_on_wake_raises_register_witness :
    scheduler_root_update_on_wake (demo_state 0) 1 7 =
      some { demo_state 0 with
        current_priority := 7,
        log := (demo_state 0).log ++ [Event.priority_write 7, Event.switch_context] } :=
  update_on_wake_raises_register (demo_state 0) 1 7 (by decide)
    (Or.inr ⟨⟨true, false, false, 5, 5, 7, 0⟩, by decide, rfl⟩)

/-- C9 as stated fails: after `scheduler_root_update_on_wake(1, 7)` on the
scenario state (register 0, task 1 not stopped) the effective priority of
task 1 is still 5, below `new_priority`. -/
theorem update_on_wake_keeps_task_priority :
    (demo_state 0).current_priority < 7 ∧
    task_stopped_asserted (demo_state 0).table 1 = false ∧
    (scheduler_root_update_on_wake (demo_state 0) 1 7).map
      (fun s => task_get_priority s.table 1) = some 5 := by
  decide

/-- C10: `scheduler_root_update_on_wake` never lowers the current-priority
register, and when the call is not ignored (`new_priority` is not below the
register and the target is not a stopped task of index above 0) the register
becomes `max` of its previous value and `new_priority`. -/
theorem update_on_wake_monotone (s : Sched) (id new_priority : Int)
    (hdef : id ≤ 0 ∨ id.toNat < s.table.length ∨ new_priority < s.current_priority) :
    ∃ s1, scheduler_root_update_on_wake s id new_priority = some s1 ∧
      s.current_priority ≤ s1.current_priority ∧
      (¬ new_priority < s.current_priority →
        (id ≤ 0 ∨ ∃ t, s.table[id.toNat]? = some t ∧ t.stopped = false) →
        s1.current_priority = max s.current_priority new_priority) := by
  obtain ⟨s1, hs1⟩ := update_on_wake_defined s id new_priority hdef
  refine ⟨s1, hs1, ?_, ?_⟩
  · rcases update_on_wake_cases s id new_priority s1 hs1 with rfl | ⟨_, rfl⟩
    · exact le_refl _
    · rw [elevate_priority]; omega
  · intro h1 h2
    rw [update_on_wake_proceeds s id new_priority h1 h2] at hs1
    simp only [Option.some.injEq] at hs1
    rw [← hs1, elevate_priority]

theorem update_on_wake_monotone_witness :
    ∃ s1, scheduler_root_update_on_wake (demo_state 0) 2 12 = some s1 ∧
      (demo_state 0).current_priority ≤ s1.current_priority ∧
      (¬ (12 : Int) < (demo_state 0).current_priority →
        ((2 : Int) ≤ 0 ∨ ∃ t, (demo_state 0).table[(2 : Int).toNat]? = some t ∧
          t.stopped = false) →
        s1.current_priority = max (demo_state 0).current_priority 12) :=
  update_on_wake_monotone (demo_state 0) 2 12 (by decide)

theorem scan_loop_segment (table : List Task) (B c : Nat) :
    ∀ (n i : Nat) (st : ScanState) (f : Nat),
      i + n < task_get_total table → (∀ m, 1 ≤ m → m ≤ n → i + m ≠ c) →
      scan_loop table B c (n + f) i st =
        scan_loop table B c f (i + n) ((List.range' i n).foldl (scan_body table B) st) := by
  intro n
  induction n with
  | zero => intro i st f _ _; simp
  | succ n ih =>
    intro i st f hlt hne
    have h1 : n + 1 + f = (n + f) + 1 := by omega
    rw [h1, scan_loop]
    have hi : i < task_get_total table := by omega
    have hnt : ¬ (i + 1 = task_get_total table) := by omega
    have hc : i + 1 ≠ c := hne 1 (le_refl _) (by omega)
    simp only [hi, if_true, hnt, if_false, ne_eq, hc, not_false_eq_true]
    rw [ih (i + 1) (scan_body table B st i) f (by omega)
      (fun m hm1 hmn => by
        have := hne (m + 1) (by omega) (by omega)
        omega)]
    rw [List.range'_succ, List.foldl_cons]
    congr 1
    omega

theorem scan_loop_stop (table : List Task) (B c : Nat) (i : Nat) (st : ScanState) (f : Nat)
    (hi : i < task_get_total table)
    (hnext : (if i + 1 = task_get_total table then 1 else i + 1) = c) :
    scan_loop table B c (f + 1) i st = some (scan_body table B st i) := by
  rw [scan_loop]
  simp [hi, hnext]

theorem scan_loop_wrap (table : List Task) (B c : Nat) (i : Nat) (st : ScanState) (f : Nat)
    (hi : i + 1 = task_get_total table) (hc : 1 ≠ c) :
    scan_loop table B c (f + 1) i st = scan_loop table B c f 1 (scan_body table B st i) := by
  rw [scan_loop]
  have hlt : i < task_get_total table := by omega
  simp [hlt, hi, hc]
theorem scan_loop_segment_le (table : List Task) (B c : Nat) (n i : Nat) (st : ScanState)
    (fuel : Nat) (hf : n ≤ fuel) (hlt : i + n < task_get_total table)
    (hne : ∀ m, 1 ≤ m → m ≤ n → i + m ≠ c) :
    scan_loop table B c fuel i st =
      scan_loop table B c (fuel - n) (i + n)
        ((List.range' i n).foldl (scan_body table B) st) := by
  obtain ⟨f, rfl⟩ := Nat.exists_eq_add_of_le hf
  rw [scan_loop_segment table B c n i st f hlt hne]
  congr 1
  omega

theorem scan_loop_stop_pos (table : List Task) (B c : Nat) (i : Nat) (st : ScanState)
    (fuel : Nat) (hf : 0 < fuel) (hi : i < task_get_total table)
    (hnext : (if i + 1 = task_get_total table then 1 else i + 1) = c) :
    scan_loop table B c fuel i st = some (scan_body table B st i) := by
  obtain ⟨f, rfl⟩ := Nat.exists_eq_add_of_le hf
  rw [Nat.add_comm]
  exact scan_loop_stop table B c i st f hi hnext

theorem scan_loop_wrap_pos (table : List Task) (B c : Nat) (i : Nat) (st : ScanState)
    (fuel : Nat) (hf : 0 < fuel) (hi : i + 1 = task_get_total table) (hc : 1 ≠ c) :
    scan_loop table B c fuel i st =
      scan_loop table B c (fuel - 1) 1 (scan_body table B st i) := by
  obtain ⟨f, rfl⟩ := Nat.exists_eq_add_of_le hf
  rw [Nat.add_comm, scan_loop_wrap table B c i st f hi hc]
  congr 1

/-- The loop of `scheduler_get_highest_priority_blocked`, started as the function
starts it, ends within a budget of `task_total` passes and folds the loop body
over `scan_order`. -/
theorem scan_loop_eq_fold (table : List Task) (B c : Nat) (st : ScanState)
    (hc1 : 1 ≤ c) (hc2 : c < task_get_total table) :
    scan_loop table B c (task_get_total table)
        (if c + 1 = task_get_total table then 1 else c + 1) st =
      some ((if task_get_total table = 2 then [1]
        else List.range' (c + 1) (task_get_total table - c - 1) ++ List.range' 1 (c - 1)).foldl
        (scan_body table B) st) := by
  by_cases hlast : c + 1 = task_get_total table
  · simp only [hlast, if_true]
    by_cases h2 : task_get_total table = 2
    · simp only [h2, if_true, List.foldl_cons, List.foldl_nil]
      rw [← h2]
      exact scan_loop_stop_pos table B c 1 st _ (by omega) (by omega)
        (by simp only [h2, if_true]; omega)
    · simp only [h2, if_false]
      have e0 : task_get_total table - c - 1 = 0 := by omega
      rw [e0, List.range'_zero, List.nil_append]
      rw [scan_loop_segment_le table B c (c - 2) 1 st _ (by omega) (by omega)
        (fun m _ _ => by omega)]
      rw [scan_loop_stop_pos table B c (1 + (c - 2)) _ _ (by omega) (by omega)
        (by
          have : ¬ (1 + (c - 2) + 1 = task_get_total table) := by omega
          simp only [this, if_false]; omega)]
      have e1 : c - 1 = (c - 2) + 1 := by omega
      rw [e1, List.range'_1_concat, List.foldl_append]
      rfl
  · simp only [hlast, if_false]
    have h2 : ¬ task_get_total table = 2 := by omega
    simp only [h2, if_false]
    rw [scan_loop_segment_le table B c (task_get_total table - c - 2) (c + 1) st _
      (by omega) (by omega) (fun m _ _ => by omega)]
    have e1 : task_get_total table - c - 1 = (task_get_total table - c - 2) + 1 := by omega
    by_cases hone : c = 1
    · rw [scan_loop_stop_pos table B c _ _ _ (by omega) (by omega)
        (by
          have : c + 1 + (task_get_total table - c - 2) + 1 = task_get_total table := by omega
          simp only [this, if_true]; omega)]
      have e2 : c - 1 = 0 := by omega
      rw [e2, List.range'_zero, List.append_nil, e1, List.range'_1_concat, List.foldl_append]
      rfl
    · rw [scan_loop_wrap_pos table B c _ _ _ (by omega) (by omega) (by omega)]
      rw [scan_loop_segment_le table B c (c - 2) 1 _ _ (by omega) (by omega)
        (fun m _ _ => by omega)]
      rw [scan_loop_stop_pos table B c (1 + (c - 2)) _ _ (by omega) (by omega)
        (by
          have : ¬ (1 + (c - 2) + 1 = task_get_total table) := by omega
          simp only [this, if_false]; omega)]
      have e3 : c - 1 = (c - 2) + 1 := by omega
      rw [e3, List.range'_1_concat, e1, List.range'_1_concat]
      simp only [List.foldl_append, List.foldl_cons, List.foldl_nil]

theorem scan_eq_fold (lowest : Int) (s : Sched) (B : Nat)
    (htotal : 2 ≤ task_get_total s.table) (hcur : s.current_task < task_get_total s.table) :
    scheduler_get_highest_priority_blocked_scan lowest s B =
      some ((scan_order (task_get_total s.table) s.current_task).foldl
        (scan_body s.table B) ⟨-1, lowest - 1, []⟩) := by
  unfold scheduler_get_highest_priority_blocked_scan scan_order
  simp only []
  by_cases h0 : s.current_task = 0
  · simp only [h0, if_true]
    exact scan_loop_eq_fold s.table B (0 + 1) _ (by omega) (by omega)
  · simp only [h0, if_false]
    exact scan_loop_eq_fold s.table B s.current_task _ (by omega) hcur

theorem scan_body_eq (table : List Task) (B : Nat) (st : ScanState) (i : Nat) :
    scan_body table B st i =
      if is_eligible_waiter table B i = true ∧ st.priority < sched_priority_of table i then
        ⟨(i : Int), sched_priority_of table i, st.visited ++ [i]⟩
      else ⟨st.new_thread, st.priority, st.visited ++ [i]⟩ := by
  unfold scan_body is_eligible_waiter
  cases task_enabled table i <;>
    cases (block_object_of table i == B && !task_active_asserted table i) <;>
    cases task_stopped_asserted table i <;>
    by_cases hp : st.priority < sched_priority_of table i <;>
    simp [hp]

/-- What a fold of the loop body over a list of indices leaves: either nothing
beat the start priority, or the result is the first listed eligible waiter of
the largest base priority. -/
theorem scan_fold_spec (table : List Task) (B : Nat) (l : List Nat) :
    ∀ st : ScanState,
      (l.foldl (scan_body table B) st).visited = st.visited ++ l ∧
      (((l.foldl (scan_body table B) st).new_thread = st.new_thread ∧
          (l.foldl (scan_body table B) st).priority = st.priority ∧
          ∀ i ∈ l, is_eligible_waiter table B i = true →
            sched_priority_of table i ≤ st.priority) ∨
        ∃ l1 j l2, l = l1 ++ j :: l2 ∧ is_eligible_waiter table B j = true ∧
          (l.foldl (scan_body table B) st).new_thread = (j : Int) ∧
          (l.foldl (scan_body table B) st).priority = sched_priority_of table j ∧
          st.priority < sched_priority_of table j ∧
          (∀ i ∈ l1, is_eligible_waiter table B i = true →
            sched_priority_of table i < sched_priority_of table j) ∧
          (∀ i ∈ l2, is_eligible_waiter table B i = true →
            sched_priority_of table i ≤ sched_priority_of table j)) := by
  induction l with
  | nil => intro st; simp
  | cons a l ih =>
    intro st
    simp only [List.foldl_cons]
    obtain ⟨hv, hcase⟩ := ih (scan_body table B st a)
    have hva : (scan_body table B st a).visited = st.visited ++ [a] := by
      rw [scan_body_eq]; split <;> rfl
    refine ⟨by rw [hv, hva]; simp, ?_⟩
    by_cases hup : is_eligible_waiter table B a = true ∧ st.priority < sched_priority_of table a
    · have hb : scan_body table B st a =
          ⟨(a : Int), sched_priority_of table a, st.visited ++ [a]⟩ := by
        rw [scan_body_eq]; simp [hup]
      rw [hb] at hcase ⊢
      right
      rcases hcase with ⟨h1, h2, h3⟩ | ⟨l1, j, l2, hl, hj, h1, h2, h3, h4, h5⟩
      · exact ⟨[], a, l, rfl, hup.1, h1, h2, hup.2, by simp, h3⟩
      · simp only [] at h3
        refine ⟨a :: l1, j, l2, by rw [hl]; rfl, hj, h1, h2, by omega, ?_, h5⟩
        intro i hi he
        rcases List.mem_cons.mp hi with rfl | hi
        · exact h3
        · exact h4 i hi he
    · have hb : scan_body table B st a = ⟨st.new_thread, st.priority, st.visited ++ [a]⟩ := by
        rw [scan_body_eq]; simp only [hup, if_false]
      rw [hb] at hcase ⊢
      rcases hcase with ⟨h1, h2, h3⟩ | ⟨l1, j, l2, hl, hj, h1, h2, h3, h4, h5⟩
      · left
        refine ⟨h1, h2, ?_⟩
        intro i hi he
        rcases List.mem_cons.mp hi with rfl | hi
        · by_contra hlt
          exact hup ⟨he, by omega⟩
        · exact h3 i hi he
      · right
        simp only [] at h3
        refine ⟨a :: l1, j, l2, by rw [hl]; rfl, hj, h1, h2, h3, ?_, h5⟩
        intro i hi he
        rcases List.mem_cons.mp hi with rfl | hi
        · by_contra hlt
          exact hup ⟨he, by omega⟩
        · exact h4 i hi he

theorem mem_scan_order (total c i : Nat) (htotal : 2 ≤ total) (hc : c < total) :
    i ∈ scan_order total c ↔
      1 ≤ i ∧ i < total ∧ (total = 2 ∨ i ≠ (if c = 0 then 1 else c)) := by
  unfold scan_order
  simp only []
  by_cases h0 : c = 0
  · rw [if_pos h0]
    by_cases h2 : total = 2
    · rw [if_pos h2, List.mem_singleton]
      constructor
      · intro h; omega
      · intro h; omega
    · rw [if_neg h2, List.mem_append, List.mem_range'_1, List.mem_range'_1]
      constructor
      · intro h; omega
      · intro h; omega
  · rw [if_neg h0]
    by_cases h2 : total = 2
    · rw [if_pos h2, List.mem_singleton]
      constructor
      · intro h; omega
      · intro h; omega
    · rw [if_neg h2, List.mem_append, List.mem_range'_1, List.mem_range'_1]
      constructor
      · intro h; omega
      · intro h; omega

theorem is_eligible_waiter_iff (table : List Task) (B : Nat) (i : Nat) :
    is_eligible_waiter table B i = true ↔
      ∃ t, table[i]? = some t ∧ t.enabled = true ∧ t.block_object = B ∧
        t.active = false ∧ t.stopped = false := by
  unfold is_eligible_waiter task_enabled block_object_of task_active_asserted
    task_stopped_asserted
  cases h : table[i]? with
  | none => simp
  | some t =>
    simp only [Bool.and_eq_true, Bool.not_eq_true', beq_iff_eq, Option.some.injEq,
      exists_eq_left']
    constructor
    · rintro ⟨⟨h1, h2, h3⟩, h4⟩; exact ⟨h1, h2, h3, h4⟩
    · rintro ⟨h1, h2, h3, h4⟩; exact ⟨⟨h1, h2, h3⟩, h4⟩

/-- Where the loop reads its entry, an eligible waiter whose base priority is
strictly above that of every other eligible waiter is the result of
`scheduler_get_highest_priority_blocked(B)`: the loop reads every entry of
index at least 1 but the one it stops at (all of them when the table has two
entries). -/
theorem highest_priority_blocked_returns_strict_max (lowest : Int) (s : Sched) (B : Nat)
    (w : Nat) (tw : Task)
    (htotal : 2 ≤ task_get_total s.table)
    (hcur : s.current_task < task_get_total s.table)
    (hb : BasePriorityBounds lowest s.table)
    (hw1 : 1 ≤ w) (hw : s.table[w]? = some tw)
    (hwe : tw.enabled = true) (hwb : tw.block_object = B)
    (hwa : tw.active = false) (hws : tw.stopped = false)
    (hmax : ∀ i t, 1 ≤ i → i ≠ w → s.table[i]? = some t →
      t.enabled = true → t.block_object = B → t.active = false → t.stopped = false →
      t.sched_priority < tw.sched_priority)
    (hscan : task_get_total s.table = 2 ∨
      (w ≠ s.current_task ∧ ¬ (s.current_task = 0 ∧ w = 1))) :
    scheduler_get_highest_priority_blocked lowest s B = some (w : Int) := by
  unfold scheduler_get_highest_priority_blocked
  rw [scan_eq_fold lowest s B htotal hcur]
  simp only [Option.map_some', Option.some.injEq]
  have hwlt : w < task_get_total s.table := (List.getElem?_eq_some.mp hw).1
  have hwmem : w ∈ scan_order (task_get_total s.table) s.current_task := by
    rw [mem_scan_order _ _ _ htotal hcur]
    refine ⟨hw1, hwlt, ?_⟩
    rcases hscan with h | ⟨h1, h2⟩
    · exact Or.inl h
    · right
      by_cases h0 : s.current_task = 0
      · rw [if_pos h0]
        intro hw1
        exact h2 ⟨h0, hw1⟩
      · rw [if_neg h0]
        exact h1
  have hwel : is_eligible_waiter s.table B w = true :=
    (is_eligible_waiter_iff _ _ _).mpr ⟨tw, hw, hwe, hwb, hwa, hws⟩
  have hwsp : sched_priority_of s.table w = tw.sched_priority := by
    simp [sched_priority_of, hw]
  have hwlow : lowest ≤ tw.sched_priority := hb tw (mem_tail_of_getElem? hw1 hw)
  obtain ⟨_, hcase⟩ := scan_fold_spec s.table B
    (scan_order (task_get_total s.table) s.current_task) ⟨-1, lowest - 1, []⟩
  rcases hcase with ⟨_, _, h3⟩ | ⟨l1, j, l2, hl, hj, h1, _, _, h4, h5⟩
  · have := h3 w hwmem hwel
    simp only [] at this
    omega
  · rw [h1]
    by_cases hjw : j = w
    · rw [hjw]
    · exfalso
      have hjmem : j ∈ scan_order (task_get_total s.table) s.current_task := by
        rw [hl]; simp
      have hj1 : 1 ≤ j := ((mem_scan_order _ _ _ htotal hcur).mp hjmem).1
      obtain ⟨tj, htj, hje, hjb, hja, hjs⟩ := (is_eligible_waiter_iff _ _ _).mp hj
      have hlt := hmax j tj hj1 hjw htj hje hjb hja hjs
      have hjsp : sched_priority_of s.table j = tj.sched_priority := by
        simp [sched_priority_of, htj]
      rw [hl] at hwmem
      rcases List.mem_append.mp hwmem with hin | hin
      · have := h4 w hin hwel
        omega
      · rcases List.mem_cons.mp hin with heq | hin2
        · exact hjw heq.symm
        · have := h5 w hin2 hwel
          omega

theorem highest_priority_blocked_returns_strict_max_witness :
    scheduler_get_highest_priority_blocked 0 (demo_state 0) 7 = some 3 :=
  highest_priority_blocked_returns_strict_max 0 (demo_state 0) 7 3
    ⟨true, false, false, 10, 10, 7, 0⟩ (by decide) (by decide) (by decide) (by decide)
    (by decide) rfl rfl rfl rfl
    (by
      intro i t h1 hne hi _ _ _ _
      have hlt : i < 4 := (List.getElem?_eq_some.mp hi).1
      have hcases : i = 1 ∨ i = 2 := by omega
      rcases hcases with rfl | rfl
      · simp only [demo_state, demo_table, List.getElem?_cons_succ, List.getElem?_cons_zero,
          Option.some.injEq] at hi
        subst hi; decide
      · simp only [demo_state, demo_table, List.getElem?_cons_succ, List.getElem?_cons_zero,
          Option.some.injEq] at hi
        subst hi; decide)
    (Or.inr ⟨by decide, by decide⟩)

/-- C3, the failing input: task 0 is the running current task, tasks 1 and 2 are
eligible waiters on block object `7` with distinct base priorities 10 and 5, so
task 1 is the waiter of strictly highest priority. The loop reads entry 2 only
and the function returns task 2. -/
theorem highest_priority_blocked_misses_top_waiter :
    2 ≤ task_get_total strict_top_state.table ∧
    strict_top_state.current_task < task_get_total strict_top_state.table ∧
    task_active_asserted strict_top_state.table strict_top_state.current_task = true ∧
    is_eligible_waiter strict_top_state.table 7 1 = true ∧
    is_eligible_waiter strict_top_state.table 7 2 = true ∧
    sched_priority_of strict_top_state.table 1 = 10 ∧
    sched_priority_of strict_top_state.table 2 = 5 ∧
    (scheduler_get_highest_priority_blocked_scan 0 strict_top_state 7).map
      ScanState.visited = some [2] ∧
    scheduler_get_highest_priority_blocked 0 strict_top_state 7 = some 2 := by
  decide

/-- C4, the failing input: the current task is 0 and tasks 1 and 2 wait on block
object `7` with the same, highest, priority 5. The round-robin order after
task 0 starts with task 1, but the loop reads only entries 2 and 3 and the
function returns task 2. -/
theorem highest_priority_blocked_skips_task_one :
    is_eligible_waiter (tie_state 0).table 7 1 = true ∧
    is_eligible_waiter (tie_state 0).table 7 2 = true ∧
    sched_priority_of (tie_state 0).table 1 = sched_priority_of (tie_state 0).table 2 ∧
    (scheduler_get_highest_priority_blocked_scan 0 (tie_state 0) 7).map ScanState.visited =
      some [2, 3] ∧
    scheduler_get_highest_priority_blocked 0 (tie_state 0) 7 = some 2 := by
  decide

theorem unblock_all_returns_max_priority_witness :
    BasePriorityBounds 0 (demo_state 0).table ∧
    (10 : Int) ≤ (scheduler_root_unblock_all 0 (demo_state 0) 7 2).2 :=
  ⟨by decide,
    (unblock_all_returns_max_priority 0 (demo_state 0) 7 2 (by decide)).1 3
      ⟨true, false, false, 10, 10, 7, 0⟩ (by decide) (by decide) rfl rfl rfl rfl⟩

/-- The loop of `scheduler_get_highest_priority_blocked` ends within any budget of
at least `task_total - 1` passes, with the fold of the loop body over the scan
order as its result. -/
theorem scan_loop_eq_fold_fuel (table : List Task) (B c : Nat) (st : ScanState) (fuel : Nat)
    (hc1 : 1 ≤ c) (hc2 : c < task_get_total table)
    (hfuel : task_get_total table - 1 ≤ fuel) :
    scan_loop table B c fuel
        (if c + 1 = task_get_total table then 1 else c + 1) st =
      some ((if task_get_total table = 2 then [1]
        else List.range' (c + 1) (task_get_total table - c - 1) ++ List.range' 1 (c - 1)).foldl
        (scan_body table B) st) := by
  by_cases hlast : c + 1 = task_get_total table
  · simp only [hlast, if_true]
    by_cases h2 : task_get_total table = 2
    · simp only [h2, if_true, List.foldl_cons, List.foldl_nil]
      exact scan_loop_stop_pos table B c 1 st fuel (by omega) (by omega)
        (by simp only [h2, if_true]; omega)
    · simp only [h2, if_false]
      have e0 : task_get_total table - c - 1 = 0 := by omega
      rw [e0, List.range'_zero, List.nil_append]
      rw [scan_loop_segment_le table B c (c - 2) 1 st fuel (by omega) (by omega)
        (fun m _ _ => by omega)]
      rw [scan_loop_stop_pos table B c (1 + (c - 2)) _ _ (by omega) (by omega)
        (by
          have : ¬ (1 + (c - 2) + 1 = task_get_total table) := by omega
          simp only [this, if_false]; omega)]
      have e1 : c - 1 = (c - 2) + 1 := by omega
      rw [e1, List.range'_1_concat, List.foldl_append]
      rfl
  · simp only [hlast, if_false]
    have h2 : ¬ task_get_total table = 2 := by omega
    simp only [h2, if_false]
    rw [scan_loop_segment_le table B c (task_get_total table - c - 2) (c + 1) st fuel
      (by omega) (by omega) (fun m _ _ => by omega)]
    have e1 : task_get_total table - c - 1 = (task_get_total table - c - 2) + 1 := by omega
    by_cases hone : c = 1
    · rw [scan_loop_stop_pos table B c _ _ _ (by omega) (by omega)
        (by
          have : c + 1 + (task_get_total table - c - 2) + 1 = task_get_total table := by omega
          simp only [this, if_true]; omega)]
      have e2 : c - 1 = 0 := by omega
      rw [e2, List.range'_zero, List.append_nil, e1, List.range'_1_concat, List.foldl_append]
      rfl
    · rw [scan_loop_wrap_pos table B c _ _ _ (by omega) (by omega) (by omega)]
      rw [scan_loop_segment_le table B c (c - 2) 1 _ _ (by omega) (by omega)
        (fun m _ _ => by omega)]
      rw [scan_loop_stop_pos table B c (1 + (c - 2)) _ _ (by omega) (by omega)
        (by
          have : ¬ (1 + (c - 2) + 1 = task_get_total table) := by omega
          simp only [this, if_false]; omega)]
      have e3 : c - 1 = (c - 2) + 1 := by omega
      rw [e3, List.range'_1_concat, e1, List.range'_1_concat]
      simp only [List.foldl_append, List.foldl_cons, List.foldl_nil]

theorem scan_order_length (total c : Nat) (htotal : 2 ≤ total) (hc : c < total) :
    (scan_order total c).length ≤ total - 1 := by
  unfold scan_order
  simp only []
  by_cases h2 : total = 2
  · rw [if_pos h2]; simp; omega
  · rw [if_neg h2, List.length_append, List.length_range', List.length_range']
    split <;> omega

theorem scan_order_nodup (total c : Nat) : (scan_order total c).Nodup := by
  unfold scan_order
  simp only []
  by_cases h2 : total = 2
  · rw [if_pos h2]; simp
  · rw [if_neg h2]
    apply List.Nodup.append (List.nodup_range' _ _) (List.nodup_range' _ _)
    intro a h1 h3
    rw [List.mem_range'_1] at h1 h3
    omega

theorem scan_visited (lowest : Int) (s : Sched) (B : Nat)
    (htotal : 2 ≤ task_get_total s.table) (hcur : s.current_task < task_get_total s.table) :
    ∃ st, scheduler_get_highest_priority_blocked_scan lowest s B = some st ∧
      st.visited = scan_order (task_get_total s.table) s.current_task := by
  refine ⟨_, scan_eq_fold lowest s B htotal hcur, ?_⟩
  rw [(scan_fold_spec s.table B _ _).1]
  rfl

/-- C19: for a table of at least two entries and a current task inside it, the
`do ... while` loop of `scheduler_get_highest_priority_blocked` ends within
`task_total - 1` passes; it reads the table once per pass, only at indices in
`[1, task_total)`, and at no index twice. -/
theorem scan_terminates_within_bounds (lowest : Int) (s : Sched) (B : Nat)
    (htotal : 2 ≤ task_get_total s.table)
    (hcur : s.current_task < task_get_total s.table) :
    ∃ st, scheduler_get_highest_priority_blocked_scan lowest s B = some st ∧
      scan_loop s.table B (if s.current_task = 0 then s.current_task + 1 else s.current_task)
        (task_get_total s.table - 1)
        (if (if s.current_task = 0 then s.current_task + 1 else s.current_task) + 1 =
            task_get_total s.table then 1
          else (if s.current_task = 0 then s.current_task + 1 else s.current_task) + 1)
        ⟨-1, lowest - 1, []⟩ = some st ∧
      st.visited.length ≤ task_get_total s.table - 1 ∧
      (∀ i ∈ st.visited, 1 ≤ i ∧ i < task_get_total s.table) ∧
      st.visited.Nodup := by
  obtain ⟨st, hst, hv⟩ := scan_visited lowest s B htotal hcur
  refine ⟨st, hst, ?_, ?_, ?_, ?_⟩
  · have hfold := scan_eq_fold lowest s B htotal hcur
    rw [hst] at hfold
    rw [hfold]
    unfold scan_order
    simp only []
    by_cases h0 : s.current_task = 0
    · simp only [h0, if_true]
      exact scan_loop_eq_fold_fuel s.table B (0 + 1) _ _ (by omega) (by omega) (le_refl _)
    · simp only [h0, if_false]
      exact scan_loop_eq_fold_fuel s.table B s.current_task _ _ (by omega) hcur (le_refl _)
  · rw [hv]; exact scan_order_length _ _ htotal hcur
  · intro i hi
    rw [hv] at hi
    have := (mem_scan_order _ _ i htotal hcur).mp hi
    exact ⟨this.1, this.2.1⟩
  · rw [hv]; exact scan_order_nodup _ _

theorem scan_terminates_within_bounds_witness :
    ∃ st, scheduler_get_highest_priority_blocked_scan 0 (demo_state 2) 7 = some st ∧
      scan_loop (demo_state 2).table 7
        (if (demo_state 2).current_task = 0 then (demo_state 2).current_task + 1
          else (demo_state 2).current_task)
        (task_get_total (demo_state 2).table - 1)
        (if (if (demo_state 2).current_task = 0 then (demo_state 2).current_task + 1
              else (demo_state 2).current_task) + 1 =
            task_get_total (demo_state 2).table then 1
          else (if (demo_state 2).current_task = 0 then (demo_state 2).current_task + 1
              else (demo_state 2).current_task) + 1)
        ⟨-1, 0 - 1, []⟩ = some st ∧
      st.visited.length ≤ task_get_total (demo_state 2).table - 1 ∧
      (∀ i ∈ st.visited, 1 ≤ i ∧ i < task_get_total (demo_state 2).table) ∧
      st.visited.Nodup :=
  scan_terminates_within_bounds 0 (demo_state 2) 7 (by decide) (by decide)

/-- C12: for a table of at least two entries and a current task inside it,
`scheduler_get_highest_priority_blocked(B)` returns `-1` or the index, in
`[1, task_total)`, of a task that is enabled, waits on `B`, is not active and
is not stopped; it returns `-1` when there is no such task, and never the
index of an active task. -/
theorem highest_priority_blocked_sound (lowest : Int) (s : Sched) (B : Nat)
    (htotal : 2 ≤ task_get_total s.table)
    (hcur : s.current_task < task_get_total s.table) :
    ∃ r, scheduler_get_highest_priority_blocked lowest s B = some r ∧
      (r = -1 ∨ ∃ (j : Nat) (t : Task), r = (j : Int) ∧ 1 ≤ j ∧ j < task_get_total s.table ∧
        s.table[j]? = some t ∧ t.enabled = true ∧ t.block_object = B ∧
        t.active = false ∧ t.stopped = false) ∧
      ((∀ j t, 1 ≤ j → s.table[j]? = some t →
          ¬ (t.enabled = true ∧ t.block_object = B ∧ t.active = false ∧
            t.stopped = false)) → r = -1) ∧
      (∀ (j : Nat) (t : Task), s.table[j]? = some t → t.active = true → r ≠ (j : Int)) := by
  have hfold := scan_eq_fold lowest s B htotal hcur
  obtain ⟨_, hcase⟩ := scan_fold_spec s.table B
    (scan_order (task_get_total s.table) s.current_task) ⟨-1, lowest - 1, []⟩
  have hres : scheduler_get_highest_priority_blocked lowest s B =
      some ((scan_order (task_get_total s.table) s.current_task).foldl
        (scan_body s.table B) ⟨-1, lowest - 1, []⟩).new_thread := by
    unfold scheduler_get_highest_priority_blocked
    rw [hfold]; rfl
  have hsound : ((scan_order (task_get_total s.table) s.current_task).foldl
        (scan_body s.table B) ⟨-1, lowest - 1, []⟩).new_thread = -1 ∨
      ∃ (j : Nat) (t : Task), ((scan_order (task_get_total s.table) s.current_task).foldl
        (scan_body s.table B) ⟨-1, lowest - 1, []⟩).new_thread = (j : Int) ∧
        1 ≤ j ∧ j < task_get_total s.table ∧
        s.table[j]? = some t ∧ t.enabled = true ∧ t.block_object = B ∧
        t.active = false ∧ t.stopped = false := by
    rcases hcase with ⟨h1, _, _⟩ | ⟨l1, j, l2, hl, hj, h1, _, _, _, _⟩
    · exact Or.inl h1
    · right
      have hjmem : j ∈ scan_order (task_get_total s.table) s.current_task := by
        rw [hl]; simp
      have hjr := (mem_scan_order _ _ j htotal hcur).mp hjmem
      obtain ⟨t, ht, he, hb, ha, hs⟩ := (is_eligible_waiter_iff _ _ _).mp hj
      exact ⟨j, t, h1, hjr.1, hjr.2.1, ht, he, hb, ha, hs⟩
  refine ⟨_, hres, hsound, ?_, ?_⟩
  · intro hnone
    rcases hsound with h | ⟨j, t, _, hj1, _, ht, he, hb, ha, hs⟩
    · exact h
    · exact absurd ⟨he, hb, ha, hs⟩ (hnone j t hj1 ht)
  · intro j t ht hact hr
    rcases hsound with h | ⟨j2, t2, hr2, _, _, ht2, _, _, ha2, _⟩
    · rw [h] at hr; omega
    · rw [hr2] at hr
      have hjj : j2 = j := by exact_mod_cast hr
      subst hjj
      rw [ht] at ht2
      simp only [Option.some.injEq] at ht2
      subst ht2
      rw [hact] at ha2
      exact absurd ha2 (by decide)

theorem highest_priority_blocked_sound_witness :
    ∃ r, scheduler_get_highest_priority_blocked 0 (demo_state 3) 7 = some r ∧
      (r = -1 ∨ ∃ (j : Nat) (t : Task), r = (j : Int) ∧ 1 ≤ j ∧ j < task_get_total (demo_state 3).table ∧
        (demo_state 3).table[j]? = some t ∧ t.enabled = true ∧ t.block_object = 7 ∧
        t.active = false ∧ t.stopped = false) ∧
      ((∀ j t, 1 ≤ j → (demo_state 3).table[j]? = some t →
          ¬ (t.enabled = true ∧ t.block_object = 7 ∧ t.active = false ∧
            t.stopped = false)) → r = -1) ∧
      (∀ (j : Nat) (t : Task), (demo_state 3).table[j]? = some t → t.active = true →
        r ≠ (j : Int)) :=
  highest_priority_blocked_sound 0 (demo_state 3) 7 (by decide) (by decide)

theorem unblock_all_body_not_waiting (B : Nat) (r : Int) (st : UnblockState) (i : Nat)
    (h : is_waiting st.table B i = false) : unblock_all_body B r st i = st := by
  unfold is_waiting at h
  unfold unblock_all_body
  cases he : task_enabled st.table i with
  | false => simp
  | true =>
    rw [he] at h
    simp only [Bool.true_and] at h
    simp [h]

theorem unblock_all_fold_not_waiting (B : Nat) (r : Int) (l : List Nat) :
    ∀ st : UnblockState, (∀ i ∈ l, is_waiting st.table B i = false) →
      l.foldl (unblock_all_body B r) st = st := by
  induction l with
  | nil => intro st _; rfl
  | cons a l ih =>
    intro st h
    rw [List.foldl_cons, unblock_all_body_not_waiting B r st a (h a (List.mem_cons_self _ _))]
    exact ih st (fun i hi => h i (List.mem_cons_of_mem _ hi))

/-- A broadcast on a block object nobody waits on changes nothing and returns
`lowest - 1`. -/
theorem unblock_all_no_waiters (lowest : Int) (s : Sched) (B : Nat) (r : Int)
    (h : ∀ i, 1 ≤ i → is_waiting s.table B i = false) :
    scheduler_root_unblock_all lowest s B r = (s, lowest - 1) := by
  unfold scheduler_root_unblock_all
  simp only []
  rw [unblock_all_fold_not_waiting B r _ _
    (fun i hi => h i (List.mem_range'_1.mp hi).1)]

theorem activate_entry_not_waiting (B : Nat) (r : Int) (t : Task) :
    ((activate_entry B r t).enabled &&
      ((activate_entry B r t).block_object == B && !(activate_entry B r t).active)) = false := by
  unfold activate_entry
  by_cases h : (t.enabled && (t.block_object == B && !t.active)) = true
  · simp [h]
  · simp only [h]
    simpa using h

theorem unblock_all_leaves_no_waiter (lowest : Int) (s : Sched) (B : Nat) (r : Int) (i : Nat)
    (hi : 1 ≤ i) :
    is_waiting (scheduler_root_unblock_all lowest s B r).1.table B i = false := by
  unfold is_waiting task_enabled block_object_of task_active_asserted
  rw [unblock_all_table lowest s B r i, if_pos hi]
  cases s.table[i]? with
  | none => rfl
  | some t =>
    simp only [Option.map_some']
    exact activate_entry_not_waiting B r t

/-- C13: a second `scheduler_root_unblock_all` on the same block object, made
right after a first one, activates no task, leaves the state exactly as the
first call left it and returns `lowest - 1`. -/
theorem unblock_all_idempotent (lowest : Int) (s : Sched) (B : Nat) (r1 r2 : Int) :
    scheduler_root_unblock_all lowest (scheduler_root_unblock_all lowest s B r1).1 B r2 =
      ((scheduler_root_unblock_all lowest s B r1).1, lowest - 1) := by
  apply unblock_all_no_waiters
  intro i hi
  exact unblock_all_leaves_no_waiter lowest s B r1 i hi

/-- For a table of at least two entries and a current task inside it,
`scheduler_get_highest_priority_blocked` returns, and its result is `-1` or the
index of an eligible waiter that the loop reads. -/
theorem highest_priority_blocked_result (lowest : Int) (s : Sched) (B : Nat)
    (htotal : 2 ≤ task_get_total s.table)
    (hcur : s.current_task < task_get_total s.table) :
    ∃ r, scheduler_get_highest_priority_blocked lowest s B = some r ∧
      (r = -1 ∨ ∃ j : Nat, r = (j : Int) ∧
        j ∈ scan_order (task_get_total s.table) s.current_task ∧
        is_eligible_waiter s.table B j = true) := by
  have hfold := scan_eq_fold lowest s B htotal hcur
  obtain ⟨_, hcase⟩ := scan_fold_spec s.table B
    (scan_order (task_get_total s.table) s.current_task) ⟨-1, lowest - 1, []⟩
  refine ⟨_, by unfold scheduler_get_highest_priority_blocked; rw [hfold]; rfl, ?_⟩
  rcases hcase with ⟨h1, _, _⟩ | ⟨l1, j, l2, hl, hj, h1, _, _, _, _⟩
  · exact Or.inl h1
  · exact Or.inr ⟨j, h1, by rw [hl]; simp, hj⟩

/-- C14 (as amended): for a non-empty block-object argument `B`, a task whose
`block_object` field is empty is never returned by
`scheduler_get_highest_priority_blocked(B)`, and
`scheduler_root_unblock_all(B, reason)` leaves its entry unchanged and issues
no activation for it. -/
theorem empty_block_object_never_matches (lowest : Int) (s : Sched) (B : Nat) (r : Int)
    (i : Nat) (t : Task) (hB : B ≠ 0) (ht : s.table[i]? = some t)
    (hempty : t.block_object = 0) :
    (2 ≤ task_get_total s.table → s.current_task < task_get_total s.table →
      ∃ res, scheduler_get_highest_priority_blocked lowest s B = some res ∧
        res ≠ (i : Int)) ∧
    (scheduler_root_unblock_all lowest s B r).1.table[i]? = some t ∧
    (∀ r1, Event.assert_active i r1 ∈ (scheduler_root_unblock_all lowest s B r).1.log →
      Event.assert_active i r1 ∈ s.log) := by
  have hnw : is_waiting s.table B i = false := by
    cases hw : is_waiting s.table B i with
    | false => rfl
    | true =>
      obtain ⟨u, hu, _, _, hb⟩ := (is_waiting_iff _ _ _).mp hw
      rw [ht] at hu
      simp only [Option.some.injEq] at hu
      subst hu
      rw [hempty] at hb
      exact absurd hb.symm hB
  refine ⟨?_, ?_, ?_⟩
  · intro htotal hcur
    obtain ⟨res, hres, hcase⟩ := highest_priority_blocked_result lowest s B htotal hcur
    refine ⟨res, hres, ?_⟩
    intro heq
    rcases hcase with h | ⟨j, hj, _, hel⟩
    · rw [h] at heq; omega
    · rw [hj] at heq
      have hji : j = i := by exact_mod_cast heq
      subst hji
      obtain ⟨u, hu, _, hb, _, _⟩ := (is_eligible_waiter_iff _ _ _).mp hel
      rw [ht] at hu
      simp only [Option.some.injEq] at hu
      subst hu
      rw [hempty] at hb
      exact hB hb.symm
  · rw [unblock_all_table lowest s B r i, ht]
    have hne : (t.enabled && (t.block_object == B && !t.active)) = false := by
      have : (t.block_object == B) = false := by
        rw [hempty]
        exact beq_false_of_ne (fun h => hB h.symm)
      simp [this]
    split <;> simp [activate_entry, hne]
  · intro r1 hmem
    rw [unblock_all_log lowest s B r, List.mem_append] at hmem
    rcases hmem with h | h
    · exact h
    · exfalso
      simp only [List.mem_map, List.mem_filter, Event.assert_active.injEq] at h
      obtain ⟨j, ⟨_, hw⟩, hji, _⟩ := h
      subst hji
      rw [hnw] at hw
      exact absurd hw (by decide)

theorem empty_block_object_never_matches_witness :
    (2 ≤ task_get_total sleeper_state.table →
      sleeper_state.current_task < task_get_total sleeper_state.table →
      ∃ res, scheduler_get_highest_priority_blocked 0 sleeper_state 7 = some res ∧
        res ≠ ((1 : Nat) : Int)) ∧
    (scheduler_root_unblock_all 0 sleeper_state 7 2).1.table[1]? =
      some ⟨true, false, false, 5, 5, 0, 0⟩ ∧
    (∀ r1, Event.assert_active 1 r1 ∈ (scheduler_root_unblock_all 0 sleeper_state 7 2).1.log →
      Event.assert_active 1 r1 ∈ sleeper_state.log) :=
  empty_block_object_never_matches 0 sleeper_state 7 2 1 ⟨true, false, false, 5, 5, 0, 0⟩
    (by decide) (by decide) rfl

/-- C14 as stated fails for the empty handle: task 1 sleeps with an empty block
object; with the empty handle `0` as argument
`scheduler_get_highest_priority_blocked` returns task 1 and
`scheduler_root_unblock_all` activates it. -/
theorem empty_handle_matches_empty_block_object :
    block_object_of sleeper_state.table 1 = 0 ∧
    scheduler_get_highest_priority_blocked 0 sleeper_state 0 = some 1 ∧
    task_active_asserted sleeper_state.table 1 = false ∧
    task_active_asserted (scheduler_root_unblock_all 0 sleeper_state 0 2).1.table 1 = true ∧
    (scheduler_root_unblock_all 0 sleeper_state 0 2).1.log = [Event.assert_active 1 2] := by
  decide

theorem scan_fold_head (table : List Task) (B : Nat) (lowest : Int) (w : Nat)
    (rest : List Nat) (hw : is_eligible_waiter table B w = true)
    (hlow : lowest - 1 < sched_priority_of table w)
    (hmax : ∀ i ∈ rest, is_eligible_waiter table B i = true →
      sched_priority_of table i ≤ sched_priority_of table w) :
    ((w :: rest).foldl (scan_body table B) ⟨-1, lowest - 1, []⟩).new_thread = (w : Int) := by
  rw [List.foldl_cons]
  have hb : scan_body table B ⟨-1, lowest - 1, []⟩ w =
      ⟨(w : Int), sched_priority_of table w, [] ++ [w]⟩ := by
    rw [scan_body_eq]
    simp [hw, hlow]
  rw [hb]
  obtain ⟨_, hcase⟩ := scan_fold_spec table B rest
    ⟨(w : Int), sched_priority_of table w, [] ++ [w]⟩
  rcases hcase with ⟨h1, _, _⟩ | ⟨l1, j, l2, hl, hj, _, _, h3, _, _⟩
  · exact h1
  · exfalso
    have hjmem : j ∈ rest := by rw [hl]; simp
    have := hmax j hjmem hj
    simp only [] at h3
    omega

theorem scan_order_head (total w : Nat) (htotal : 2 ≤ total) (hw1 : 1 ≤ w) (hw2 : w < total) :
    ∃ c rest, c < total ∧ c ≠ w ∧ scan_order total c = w :: rest := by
  by_cases h2 : 2 ≤ w
  · refine ⟨w - 1, List.range' (w + 1) (total - w - 1) ++ List.range' 1 (w - 1 - 1),
      by omega, by omega, ?_⟩
    unfold scan_order
    simp only []
    have h0 : ¬ (w - 1 = 0) := by omega
    have ht : ¬ (total = 2) := by omega
    rw [if_neg h0, if_neg ht]
    have e1 : w - 1 + 1 = w := by omega
    have e2 : total - (w - 1) - 1 = (total - w - 1) + 1 := by omega
    rw [e1, e2, List.range'_succ, List.cons_append]
  · have hw : w = 1 := by omega
    subst hw
    by_cases ht : total = 2
    · subst ht
      exact ⟨0, [], by omega, by omega, by decide⟩
    · refine ⟨total - 1, List.range' 2 (total - 3), by omega, by omega, ?_⟩
      unfold scan_order
      simp only []
      have h0 : ¬ (total - 1 = 0) := by omega
      rw [if_neg h0, if_neg ht]
      have e1 : total - (total - 1) - 1 = 0 := by omega
      have e2 : total - 1 - 1 = (total - 3) + 1 := by omega
      rw [e1, List.range'_zero, List.nil_append, e2, List.range'_succ]

/-- A waiter whose base priority is the highest among the eligible waiters is
returned for some current task other than itself. -/
theorem top_waiter_selected (lowest : Int) (s : Sched) (B : Nat) (w : Nat) (tw : Task)
    (htotal : 2 ≤ task_get_total s.table)
    (hb : BasePriorityBounds lowest s.table)
    (hw1 : 1 ≤ w) (hw : s.table[w]? = some tw)
    (hwe : tw.enabled = true) (hwb : tw.block_object = B)
    (hwa : tw.active = false) (hws : tw.stopped = false)
    (hmax : ∀ i t, 1 ≤ i → s.table[i]? = some t →
      t.enabled = true → t.block_object = B → t.active = false → t.stopped = false →
      t.sched_priority ≤ tw.sched_priority) :
    ∃ c, c < task_get_total s.table ∧ c ≠ w ∧
      scheduler_get_highest_priority_blocked lowest { s with current_task := c } B =
        some (w : Int) := by
  have hwlt : w < task_get_total s.table := (List.getElem?_eq_some.mp hw).1
  obtain ⟨c, rest, hc1, hc2, horder⟩ := scan_order_head _ w htotal hw1 hwlt
  refine ⟨c, hc1, hc2, ?_⟩
  unfold scheduler_get_highest_priority_blocked
  rw [scan_eq_fold lowest { s with current_task := c } B htotal hc1]
  simp only [Option.map_some', Option.some.injEq]
  rw [horder]
  have hwsp : sched_priority_of s.table w = tw.sched_priority := by
    simp [sched_priority_of, hw]
  have hwlow : lowest ≤ tw.sched_priority := hb tw (mem_tail_of_getElem? hw1 hw)
  apply scan_fold_head
  · exact (is_eligible_waiter_iff _ _ _).mpr ⟨tw, hw, hwe, hwb, hwa, hws⟩
  · rw [hwsp]; omega
  · intro i hi hel
    have himem : i ∈ scan_order (task_get_total s.table) c := by
      rw [horder]; exact List.mem_cons_of_mem _ hi
    have hi1 := ((mem_scan_order _ _ i htotal hc1).mp himem).1
    obtain ⟨t, ht, he, hb2, ha, hs⟩ := (is_eligible_waiter_iff _ _ _).mp hel
    have := hmax i t hi1 ht he hb2 ha hs
    rw [hwsp]
    simpa [sched_priority_of, ht] using this

/-- C16: in a table of at least two entries every eligible waiter on `B` whose
base priority is the highest among the eligible waiters on `B` is the result of
`scheduler_get_highest_priority_blocked(B)` for some current task other than
itself; so two waiters tied at the highest priority are selected by two
different current tasks. -/
theorem every_top_waiter_is_selected (lowest : Int) (s : Sched) (B : Nat) (w : Nat)
    (tw : Task)
    (htotal : 2 ≤ task_get_total s.table)
    (hb : BasePriorityBounds lowest s.table)
    (hw1 : 1 ≤ w) (hw : s.table[w]? = some tw)
    (hwe : tw.enabled = true) (hwb : tw.block_object = B)
    (hwa : tw.active = false) (hws : tw.stopped = false)
    (hmax : ∀ i t, 1 ≤ i → s.table[i]? = some t →
      t.enabled = true → t.block_object = B → t.active = false → t.stopped = false →
      t.sched_priority ≤ tw.sched_priority) :
    (∃ c, c < task_get_total s.table ∧ c ≠ w ∧
      scheduler_get_highest_priority_blocked lowest { s with current_task := c } B =
        some (w : Int)) ∧
    (∀ (w2 : Nat) (tw2 : Task), 1 ≤ w2 → w2 ≠ w → s.table[w2]? = some tw2 →
      tw2.enabled = true → tw2.block_object = B → tw2.active = false →
      tw2.stopped = false → tw2.sched_priority = tw.sched_priority →
      ∃ c1 c2, c1 < task_get_total s.table ∧ c2 < task_get_total s.table ∧ c1 ≠ c2 ∧
        scheduler_get_highest_priority_blocked lowest { s with current_task := c1 } B =
          some (w : Int) ∧
        scheduler_get_highest_priority_blocked lowest { s with current_task := c2 } B =
          some (w2 : Int)) := by
  have hfirst := top_waiter_selected lowest s B w tw htotal hb hw1 hw hwe hwb hwa hws hmax
  refine ⟨hfirst, ?_⟩
  intro w2 tw2 h21 hne h2 h2e h2b h2a h2s heq
  obtain ⟨c1, hc1, _, hr1⟩ := hfirst
  obtain ⟨c2, hc2, _, hr2⟩ := top_waiter_selected lowest s B w2 tw2 htotal hb h21 h2
    h2e h2b h2a h2s
    (fun i t hi ht he hbo ha hs => by
      rw [heq]; exact hmax i t hi ht he hbo ha hs)
  refine ⟨c1, c2, hc1, hc2, ?_, hr1, hr2⟩
  intro hcc
  rw [hcc, hr2] at hr1
  simp only [Option.some.injEq] at hr1
  have : w2 = w := by exact_mod_cast hr1
  exact hne this

theorem every_top_waiter_is_selected_witness :
    (∃ c, c < task_get_total (tie_state 0).table ∧ c ≠ 1 ∧
      scheduler_get_highest_priority_blocked 0 { tie_state 0 with current_task := c } 7 =
        some ((1 : Nat) : Int)) ∧
    (∀ (w2 : Nat) (tw2 : Task), 1 ≤ w2 → w2 ≠ 1 → (tie_state 0).table[w2]? = some tw2 →
      tw2.enabled = true → tw2.block_object = 7 → tw2.active = false →
      tw2.stopped = false →
      tw2.sched_priority = (⟨true, false, false, 5, 5, 7, 0⟩ : Task).sched_priority →
      ∃ c1 c2, c1 < task_get_total (tie_state 0).table ∧
        c2 < task_get_total (tie_state 0).table ∧ c1 ≠ c2 ∧
        scheduler_get_highest_priority_blocked 0 { tie_state 0 with current_task := c1 } 7 =
          some ((1 : Nat) : Int) ∧
        scheduler_get_highest_priority_blocked 0 { tie_state 0 with current_task := c2 } 7 =
          some (w2 : Int)) :=
  every_top_waiter_is_selected 0 (tie_state 0) 7 1 ⟨true, false, false, 5, 5, 7, 0⟩
    (by decide) (by decide) (by decide) rfl rfl rfl rfl rfl
    (by
      intro i t _ hi _ hbo _ _
      have hlt : i < 4 := (List.getElem?_eq_some.mp hi).1
      have hcases : i = 0 ∨ i = 1 ∨ i = 2 ∨ i = 3 := by omega
      rcases hcases with rfl | rfl | rfl | rfl <;>
        simp only [tie_state, List.getElem?_cons_succ, List.getElem?_cons_zero,
          Option.some.injEq] at hi <;>
        subst hi <;> first | decide | exact absurd hbo (by decide))

/-- C17: `scheduler_root_update_on_wake` leaves the task table, and so every
task's active flag, as it was, whether the target is stopped or not. -/
theorem update_on_wake_keeps_active_flags (s : Sched) (id new_priority : Int)
    (hdef : id ≤ 0 ∨ id.toNat < s.table.length ∨ new_priority < s.current_priority) :
    ∃ s1, scheduler_root_update_on_wake s id new_priority = some s1 ∧
      s1.table = s.table ∧
      (∀ i, task_active_asserted s1.table i = task_active_asserted s.table i) ∧
      (∀ t, 0 < id → s.table[id.toNat]? = some t → t.stopped = true →
        s1.table[id.toNat]? = some t) := by
  obtain ⟨s1, hs1⟩ := update_on_wake_defined s id new_priority hdef
  have ht : s1.table = s.table := by
    rcases update_on_wake_cases s id new_priority s1 hs1 with rfl | ⟨_, rfl⟩
    · rfl
    · exact elevate_table s new_priority
  refine ⟨s1, hs1, ht, ?_, ?_⟩
  · intro i; rw [ht]
  · intro t _ htt _; rw [ht]; exact htt

theorem update_on_wake_keeps_active_flags_witness :
    ∃ s1, scheduler_root_update_on_wake (demo_state 0) 2 12 = some s1 ∧
      s1.table = (demo_state 0).table ∧
      (∀ i, task_active_asserted s1.table i =
        task_active_asserted (demo_state 0).table i) ∧
      (∀ t, 0 < (2 : Int) → (demo_state 0).table[(2 : Int).toNat]? = some t →
        t.stopped = true → s1.table[(2 : Int).toNat]? = some t) :=
  update_on_wake_keeps_active_flags (demo_state 0) 2 12 (by decide)

/-- C20: when the register is at least `lowest` and no task of index at least 1
is an enabled, not active, not stopped waiter on `B`,
`scheduler_root_unblock_all(B, r)` returns `lowest - 1`, and
`scheduler_root_update_on_wake(id, lowest - 1)` made after it changes nothing
and requests no context switch, for every `id`. The bound on the register
holds after `scheduler_root_update_on_stopped` and is kept by
`scheduler_root_update_on_wake`. -/
theorem no_waiter_result_is_harmless (lowest : Int) (s : Sched) (B : Nat) (r : Int)
    (id : Int) (hlow : lowest ≤ s.current_priority)
    (hno : ∀ i t, 1 ≤ i → s.table[i]? = some t →
      ¬ (t.enabled = true ∧ t.block_object = B ∧ t.active = false ∧ t.stopped = false)) :
    (scheduler_root_unblock_all lowest s B r).2 = lowest - 1 ∧
    scheduler_root_update_on_wake (scheduler_root_unblock_all lowest s B r).1 id
        (scheduler_root_unblock_all lowest s B r).2 =
      some (scheduler_root_unblock_all lowest s B r).1 ∧
    (∀ s0, PriorityBounds lowest s0.table →
      lowest ≤ (scheduler_root_update_on_stopped lowest s0).current_priority) ∧
    (∀ id1 p s1, scheduler_root_update_on_wake s id1 p = some s1 →
      lowest ≤ s1.current_priority) := by
  have hres : (scheduler_root_unblock_all lowest s B r).2 = lowest - 1 := by
    rw [unblock_all_result]
    obtain ⟨_, _, f4⟩ := unblock_priority_fold s.table B
      (List.range' 1 (task_get_total s.table - 1)) (lowest - 1)
    rcases f4 with h | ⟨j, hj, hw, hs, _⟩
    · exact h
    · exfalso
      obtain ⟨t, ht, he, ha, hb⟩ := (is_waiting_iff _ _ _).mp hw
      have hst : t.stopped = false := by
        simpa [task_stopped_asserted, ht] using hs
      exact hno j t (List.mem_range'_1.mp hj).1 ht ⟨he, hb, ha, hst⟩
  refine ⟨hres, ?_, ?_, ?_⟩
  · rw [hres]
    have hlt : lowest - 1 < (scheduler_root_unblock_all lowest s B r).1.current_priority := by
      have : (scheduler_root_unblock_all lowest s B r).1.current_priority =
          s.current_priority := rfl
      rw [this]; omega
    simp [scheduler_root_update_on_wake, hlt]
  · intro s0 hb0
    exact (update_on_stopped_is_max lowest s0 hb0).2
  · intro id1 p s1 hs1
    rcases update_on_wake_cases s id1 p s1 hs1 with rfl | ⟨_, rfl⟩
    · exact hlow
    · rw [elevate_priority]; omega

theorem no_waiter_result_is_harmless_witness :
    (scheduler_root_unblock_all 0 (demo_state 0) 9 2).2 = 0 - 1 ∧
    scheduler_root_update_on_wake (scheduler_root_unblock_all 0 (demo_state 0) 9 2).1 3
        (scheduler_root_unblock_all 0 (demo_state 0) 9 2).2 =
      some (scheduler_root_unblock_all 0 (demo_state 0) 9 2).1 ∧
    (∀ s0, PriorityBounds 0 s0.table →
      0 ≤ (scheduler_root_update_on_stopped 0 s0).current_priority) ∧
    (∀ id1 p s1, scheduler_root_update_on_wake (demo_state 0) id1 p = some s1 →
      0 ≤ s1.current_priority) :=
  no_waiter_result_is_harmless 0 (demo_state 0) 9 2 3 (by decide)
    (by
      intro i t _ hi hq
      have hlt : i < 4 := (List.getElem?_eq_some.mp hi).1
      have hcases : i = 0 ∨ i = 1 ∨ i = 2 ∨ i = 3 := by omega
      rcases hcases with rfl | rfl | rfl | rfl <;>
        simp only [demo_state, demo_table, List.getElem?_cons_succ, List.getElem?_cons_zero,
          Option.some.injEq] at hi <;>
        subst hi <;> exact absurd hq.2.1 (by decide))

/-- C15 (as amended): `scheduler_check_tid(id)` returns `-1` exactly for an `id`
at or past the end of the table or naming a slot that is not in use; for an
`id` that does not name an enabled task, `scheduler_root_update_on_wake`
changes nothing and requests no context switch when `new_priority` is below
the current priority, and leaves the task table unchanged for every
`new_priority`. -/
theorem update_on_wake_invalid_target (s : Sched) (id new_priority : Int) :
    (0 ≤ id → (scheduler_check_tid s.table id = some (-1) ↔
      ((task_get_total s.table : Int) ≤ id ∨ task_enabled s.table id.toNat = false))) ∧
    (scheduler_check_tid s.table id ≠ some 0 →
      (new_priority < s.current_priority →
        scheduler_root_update_on_wake s id new_priority = some s) ∧
      ((id ≤ 0 ∨ id.toNat < s.table.length) →
        ∃ s1, scheduler_root_update_on_wake s id new_priority = some s1 ∧
          s1.table = s.table)) := by
  constructor
  · intro h0
    unfold scheduler_check_tid
    by_cases hlt : id < (task_get_total s.table : Int)
    · have hn : ¬ id < 0 := by omega
      have hn2 : ¬ (task_get_total s.table : Int) ≤ id := by omega
      simp only [hlt, hn, if_true, if_false, hn2, false_or]
      cases task_enabled s.table id.toNat <;> simp
    · have : (task_get_total s.table : Int) ≤ id := by omega
      simp [hlt, this]
  · intro _
    constructor
    · intro hlt
      simp [scheduler_root_update_on_wake, hlt]
    · intro hdef
      obtain ⟨s1, hs1⟩ := update_on_wake_defined s id new_priority
        (by rcases hdef with h | h
            · exact Or.inl h
            · exact Or.inr (Or.inl h))
      refine ⟨s1, hs1, ?_⟩
      rcases update_on_wake_cases s id new_priority s1 hs1 with rfl | ⟨_, rfl⟩
      · rfl
      · exact elevate_table s new_priority

theorem update_on_wake_invalid_target_witness :
    scheduler_check_tid disabled_slot_state.table 1 ≠ some 0 ∧
    scheduler_root_update_on_wake disabled_slot_state 1 (-1) = some disabled_slot_state :=
  ⟨by decide,
    ((update_on_wake_invalid_target disabled_slot_state 1 (-1)).2 (by decide)).1 (by decide)⟩

/-- C15 as stated fails: slot 1 is not in use (`scheduler_check_tid(1)` is `-1`),
yet `scheduler_root_update_on_wake(1, 5)` raises the register from 0 to 5 and
issues a context-switch request. -/
theorem update_on_wake_disabled_slot_has_effect :
    scheduler_check_tid disabled_slot_state.table 1 = some (-1) ∧
    scheduler_root_update_on_wake disabled_slot_state 1 5 =
      some { disabled_slot_state with
        current_priority := 5,
        log := [Event.priority_write 5, Event.switch_context] } := by
  decide

theorem check_faults_eq (trace_ok : Nat → Bool) (k : FaultState) :
    check_faults trace_ok k =
      if k.fault.num ≠ 0 then
        (⟨{ k.fault with num := 0 }, k.events ++ fault_report trace_ok k.fault⟩, 0)
      else (k, 0) := by
  unfold check_faults
  by_cases h : k.fault.num = 0
  · simp [h]
  · simp [h, emit, svcall_fault_logged, fault_report]

theorem fault_report_no_loop_event (trace_ok : Nat → Bool) (f : CortexmFault) :
    ∀ e ∈ fault_report trace_ok f, is_loop_event e = false := by
  intro e he
  simp only [fault_report, List.mem_cons, List.mem_singleton, List.not_mem_nil, or_false] at he
  rcases he with h | h | h | h | h | h | h | h | h | h | h | h | h | h | h | h | h | h | h | h |
    h | h <;> subst h <;> rfl

/-- C11: for a pending fault (number not zero) and whatever the trace
collaborator answers, `check_faults` makes seven trace emissions (fault number,
fault address, caller, free stack, free heap, handler address, handler caller,
each with the faulting task id), each followed by `usleep(2000)` before the
next, then clears the fault number and leaves the other fields as they were;
a second call right after makes no call and changes nothing. -/
theorem check_faults_drains_pending_fault (trace_ok trace_ok2 : Nat → Bool) (k : FaultState)
    (h : k.fault.num ≠ 0) :
    (check_faults trace_ok k).2 = 0 ∧
    (check_faults trace_ok k).1.fault = { k.fault with num := 0 } ∧
    (∃ evs, (check_faults trace_ok k).1.events = k.events ++ evs ∧
      evs.filter is_not_debug_log =
        [SysEvent.trace TraceKind.fatal (TraceText.fault k.fault.num)
            (u32 (u32 k.fault.pc + 1)) k.fault.tid (trace_ok 0),
          SysEvent.usleep 2000,
          SysEvent.trace TraceKind.fatal (TraceText.addr k.fault.addr)
            (u32 (u32 k.fault.pc + 1)) k.fault.tid (trace_ok 1),
          SysEvent.usleep 2000,
          SysEvent.trace TraceKind.message TraceText.caller (u32 k.fault.caller)
            k.fault.tid (trace_ok 2),
          SysEvent.usleep 2000,
          SysEvent.trace TraceKind.message (TraceText.stack k.fault.free_stack_size)
            (u32 (u32 k.fault.pc + 1)) k.fault.tid (trace_ok 3),
          SysEvent.usleep 2000,
          SysEvent.trace TraceKind.message (TraceText.heap k.fault.free_heap_size)
            (u32 (u32 k.fault.pc + 1)) k.fault.tid (trace_ok 4),
          SysEvent.usleep 2000,
          SysEvent.trace TraceKind.message TraceText.root_pc
            (u32 (u32 k.fault.handler_pc + 1)) k.fault.tid (trace_ok 5),
          SysEvent.usleep 2000,
          SysEvent.trace TraceKind.message TraceText.root_caller
            (u32 k.fault.handler_caller) k.fault.tid (trace_ok 6),
          SysEvent.usleep 2000,
          SysEvent.svcall_fault_logged] ∧
      (evs.filter is_trace_or_delay).length = 14) ∧
    check_faults trace_ok2 (check_faults trace_ok k).1 = ((check_faults trace_ok k).1, 0) := by
  rw [check_faults_eq trace_ok k, if_pos h]
  refine ⟨rfl, rfl, ⟨fault_report trace_ok k.fault, rfl, ?_, ?_⟩, ?_⟩
  · simp [fault_report, List.filter, is_not_debug_log]
  · simp [fault_report, List.filter, is_trace_or_delay]
  · rw [check_faults_eq trace_ok2]
    simp

theorem check_faults_drains_pending_fault_witness :
    demo_fault.fault.num ≠ 0 ∧
    (check_faults (fun _ => false) demo_fault).1.fault.num = 0 ∧
    check_faults (fun _ => true) (check_faults (fun _ => false) demo_fault).1 =
      ((check_faults (fun _ => false) demo_fault).1, 0) :=
  ⟨by decide, by decide,
    (check_faults_drains_pending_fault (fun _ => false) (fun _ => true) demo_fault
      (by decide)).2.2.2⟩

theorem scheduler_loop_body_eq (trace_ok : Nat → Bool) (exec_count : Int) (k : FaultState) :
    ∃ fevs, (∀ e ∈ fevs, is_loop_event e = false) ∧
      scheduler_loop_body trace_ok exec_count k =
        ⟨{ k.fault with num := 0 },
          k.events ++ SysEvent.check_faults :: fevs ++
            [if exec_count = 0 then SysEvent.idle else SysEvent.sched_yield]⟩ := by
  unfold scheduler_loop_body
  simp only []
  rw [check_faults_eq]
  by_cases h : k.fault.num = 0
  · refine ⟨[], by simp, ?_⟩
    have hk : ({ k.fault with num := 0 } : CortexmFault) = k.fault := by
      rw [← h]
    by_cases hc : exec_count = 0 <;> simp [emit, h, hc, hk]
  · refine ⟨fault_report trace_ok k.fault, fault_report_no_loop_event trace_ok k.fault, ?_⟩
    by_cases hc : exec_count = 0 <;> simp [emit, h, hc]

theorem filter_loop_event_eq_nil (l : List SysEvent)
    (h : ∀ e ∈ l, is_loop_event e = false) : l.filter is_loop_event = [] := by
  rw [List.filter_eq_nil_iff]
  intro e he
  rw [h e he]
  decide

/-- C18: one pass of the loop of `scheduler()` calls `check_faults` first, lets
it drain a pending fault, and then makes exactly one call: the idle hook when
`task_get_exec_count()` is `0`, `sched_yield` otherwise; over any number of
passes the loop's own calls are the fault check and that one call, pass after
pass. -/
theorem scheduler_loop_checks_faults_then_dispatches (trace_ok : Nat → Nat → Bool)
    (exec_count : Nat → Int) :
    (∀ (ok : Nat → Bool) (ec : Int) (k : FaultState),
      ∃ fevs, (∀ e ∈ fevs, is_loop_event e = false) ∧
        (scheduler_loop_body ok ec k).events =
          k.events ++ SysEvent.check_faults :: fevs ++
            [if ec = 0 then SysEvent.idle else SysEvent.sched_yield] ∧
        (scheduler_loop_body ok ec k).fault.num = 0) ∧
    (∀ (n i : Nat) (k : FaultState),
      (scheduler_loop trace_ok exec_count i n k).events.filter is_loop_event =
        k.events.filter is_loop_event ++ expected_loop_calls exec_count i n) := by
  constructor
  · intro ok ec k
    obtain ⟨fevs, hf, heq⟩ := scheduler_loop_body_eq ok ec k
    exact ⟨fevs, hf, by rw [heq], by rw [heq]⟩
  · intro n
    induction n with
    | zero => intro i k; simp [scheduler_loop, expected_loop_calls]
    | succ n ih =>
      intro i k
      rw [scheduler_loop, ih]
      obtain ⟨fevs, hf, heq⟩ := scheduler_loop_body_eq (trace_ok i) (exec_count i) k
      rw [heq]
      simp only [expected_loop_calls, List.filter_append, List.filter_cons,
        filter_loop_event_eq_nil fevs hf, List.filter_nil]
      by_cases hc : exec_count i = 0 <;> simp [hc, is_loop_event]

theorem copy_ranges_append (l1 l2 : List LinkEvent) :
    copy_ranges (l1 ++ l2) = copy_ranges l1 ++ copy_ranges l2 := by
  induction l1 with
  | nil => rfl
  | cons e l ih => cases e <;> simp [copy_ranges, ih]

theorem page_writes_append (l1 l2 : List LinkEvent) :
    page_writes (l1 ++ l2) = page_writes l1 ++ page_writes l2 := by
  induction l1 with
  | nil => rfl
  | cons e l ih => cases e <;> simp [page_writes, ih]

theorem i32_eq_self {x : Int} (h1 : -2147483648 ≤ x) (h2 : x ≤ 2147483647) : i32 x = x := by
  unfold i32; omega

theorem u32_step (a x k : Nat) : u32 (u32 (a + x) + k * x) = u32 (a + (k + 1) * x) := by
  unfold u32
  rw [Nat.succ_mul]
  omega

/-- The loop of `link_writeflash` when every page write succeeds and `m + 1`
pages are left: it returns `nbyte` after `m + 1` reads of `page_size` bytes at
consecutive offsets and `m + 1` page writes at consecutive addresses. -/
theorem writeflash_loop_success (page_size_max : Int) (ioctl_result : Nat → Int)
    (mem : Nat → Nat) (page_size nbyte : Int)
    (hps : 1 ≤ page_size) (hovf : nbyte + page_size ≤ 2147483647)
    (hok : ∀ n, 0 ≤ ioctl_result n) :
    ∀ (m fuel : Nat) (st : WriteFlashState), m + 1 ≤ fuel →
      0 ≤ st.bytes_written → st.addr < 4294967296 →
      st.bytes_written + (m : Int) * page_size < nbyte →
      nbyte ≤ st.bytes_written + ((m : Int) + 1) * page_size →
      ∃ r, writeflash_loop page_size_max ioctl_result mem page_size nbyte fuel st = some r ∧
        r.ret = nbyte ∧
        copy_ranges r.events = copy_ranges st.events ++
          (List.range (m + 1)).map
            (fun k => (st.offset + k * page_size.toNat, page_size.toNat)) ∧
        page_writes r.events = page_writes st.events ++
          (List.range (m + 1)).map
            (fun k => (u32 (st.addr + k * u32_of_int page_size), page_size)) := by
  intro m
  induction m with
  | zero =>
    intro fuel st hf hb ha h1 h2
    obtain ⟨f, rfl⟩ := Nat.exists_eq_add_of_le hf
    have hfe : 0 + 1 + f = f + 1 := by omega
    rw [hfe, writeflash_loop]
    have hn : ¬ page_size < 0 := by omega
    have he : ¬ ioctl_result st.calls < 0 := by have := hok st.calls; omega
    have hi : i32 (st.bytes_written + page_size) = st.bytes_written + page_size :=
      i32_eq_self (by omega) (by omega)
    have hd : ¬ (st.bytes_written + page_size < nbyte) := by
      simp only [Nat.cast_zero, zero_add, one_mul] at h2
      omega
    simp only [hn, he, if_false, hi, hd]
    have hr1 : List.range (0 + 1) = [0] := rfl
    have hu : u32 st.addr = st.addr := by unfold u32; omega
    refine ⟨_, rfl, rfl, ?_, ?_⟩
    · simp [copy_ranges_append, copy_ranges, hr1]
    · simp [page_writes_append, page_writes, hr1, hu]
  | succ m ih =>
    intro fuel st hf hb ha h1 h2
    obtain ⟨f, rfl⟩ := Nat.exists_eq_add_of_le hf
    have hfe : m + 1 + 1 + f = (m + 1 + f) + 1 := by omega
    rw [hfe, writeflash_loop]
    have hn : ¬ page_size < 0 := by omega
    have he : ¬ ioctl_result st.calls < 0 := by have := hok st.calls; omega
    have hm0 : (0 : Int) ≤ (m : Int) * page_size :=
      Int.mul_nonneg (Int.ofNat_nonneg m) (by omega)
    have hexp : ((m + 1 : Nat) : Int) * page_size = (m : Int) * page_size + page_size := by
      push_cast; ring
    have hexp2 : (((m + 1 : Nat) : Int) + 1) * page_size =
        ((m : Int) + 1) * page_size + page_size := by
      push_cast; ring
    have hd : st.bytes_written + page_size < nbyte := by
      rw [hexp] at h1; omega
    have hi : i32 (st.bytes_written + page_size) = st.bytes_written + page_size :=
      i32_eq_self (by omega) (by omega)
    simp only [hn, he, if_false, hi, hd, if_true]
    obtain ⟨r, hr, hret, hcopy, hpages⟩ := ih (m + 1 + f)
      { addr := u32 (st.addr + u32_of_int page_size),
        offset := st.offset + page_size.toNat,
        bytes_written := st.bytes_written + page_size,
        calls := st.calls + 1,
        events := st.events ++
          [LinkEvent.memcpy_from_buf st.offset page_size.toNat,
            LinkEvent.set_timeout 5000,
            LinkEvent.write_page st.addr page_size
              ((List.range page_size.toNat).map (fun j => mem (st.offset + j))
                ++ List.replicate (page_size_max - page_size).toNat 255),
            LinkEvent.set_timeout 0] }
      (by omega) (by simp only []; omega)
      (by simp only []; unfold u32; omega)
      (by simp only []; rw [hexp] at h1; omega)
      (by simp only []; rw [hexp2] at h2; omega)
    refine ⟨r, hr, hret, ?_, ?_⟩
    · rw [hcopy]
      simp only [copy_ranges_append, copy_ranges, List.append_assoc, List.append_nil,
        List.singleton_append]
      congr 1
      rw [List.range_succ_eq_map (m + 1), List.map_cons, List.map_map]
      simp only [Nat.zero_mul, Nat.add_zero]
      congr 1
      apply List.map_congr_left
      intro k _
      simp only [Function.comp, Nat.succ_eq_add_one, Prod.mk.injEq, and_true]
      rw [Nat.succ_mul]; omega
    · rw [hpages]
      simp only [page_writes_append, page_writes, List.append_assoc, List.append_nil,
        List.singleton_append]
      congr 1
      rw [List.range_succ_eq_map (m + 1), List.map_cons, List.map_map]
      simp only [Nat.zero_mul, Nat.add_zero]
      have : u32 st.addr = st.addr := by unfold u32; omega
      rw [this]
      congr 1
      apply List.map_congr_left
      intro k _
      simp only [Function.comp, Nat.succ_eq_add_one, Prod.mk.injEq, and_true]
      exact u32_step _ _ _
/-- The loop of `link_writeflash` when the page write number `j` from here is the
first to fail: it returns that error after `j + 1` page writes. -/
theorem writeflash_loop_failure (page_size_max : Int) (ioctl_result : Nat → Int)
    (mem : Nat → Nat) (page_size nbyte : Int)
    (hps : 1 ≤ page_size) (hovf : nbyte + page_size ≤ 2147483647) :
    ∀ (j fuel : Nat) (st : WriteFlashState), j + 1 ≤ fuel →
      0 ≤ st.bytes_written →
      st.bytes_written + (j : Int) * page_size < nbyte →
      (∀ i, i < j → 0 ≤ ioctl_result (st.calls + i)) →
      ioctl_result (st.calls + j) < 0 →
      ∃ r, writeflash_loop page_size_max ioctl_result mem page_size nbyte fuel st = some r ∧
        r.ret = ioctl_result (st.calls + j) ∧
        (page_writes r.events).length = (page_writes st.events).length + (j + 1) ∧
        r.events.getLast? = some LinkEvent.link_error := by
  intro j
  induction j with
  | zero =>
    intro fuel st hf _ _ _ hfail
    obtain ⟨f, rfl⟩ := Nat.exists_eq_add_of_le hf
    have hfe : 0 + 1 + f = f + 1 := by omega
    rw [hfe, writeflash_loop]
    have hn : ¬ page_size < 0 := by omega
    simp only [Nat.add_zero] at hfail
    simp only [hn, hfail, if_false, if_true, Nat.add_zero]
    refine ⟨_, rfl, rfl, ?_, ?_⟩
    · simp [page_writes_append, page_writes]
    · simp
  | succ j ih =>
    intro fuel st hf hb h1 hok hfail
    obtain ⟨f, rfl⟩ := Nat.exists_eq_add_of_le hf
    have hfe : j + 1 + 1 + f = (j + 1 + f) + 1 := by omega
    rw [hfe, writeflash_loop]
    have hn : ¬ page_size < 0 := by omega
    have he : ¬ ioctl_result st.calls < 0 := by
      have := hok 0 (by omega)
      simp only [Nat.add_zero] at this
      omega
    have hj0 : (0 : Int) ≤ (j : Int) * page_size :=
      Int.mul_nonneg (Int.ofNat_nonneg j) (by omega)
    have hexp : ((j + 1 : Nat) : Int) * page_size = (j : Int) * page_size + page_size := by
      push_cast; ring
    have hd : st.bytes_written + page_size < nbyte := by
      rw [hexp] at h1; omega
    have hi : i32 (st.bytes_written + page_size) = st.bytes_written + page_size :=
      i32_eq_self (by omega) (by omega)
    simp only [hn, he, if_false, hi, hd, if_true]
    obtain ⟨r, hr, hret, hlen, hlast⟩ := ih (j + 1 + f)
      { addr := u32 (st.addr + u32_of_int page_size),
        offset := st.offset + page_size.toNat,
        bytes_written := st.bytes_written + page_size,
        calls := st.calls + 1,
        events := st.events ++
          [LinkEvent.memcpy_from_buf st.offset page_size.toNat,
            LinkEvent.set_timeout 5000,
            LinkEvent.write_page st.addr page_size
              ((List.range page_size.toNat).map (fun j => mem (st.offset + j))
                ++ List.replicate (page_size_max - page_size).toNat 255),
            LinkEvent.set_timeout 0] }
      (by omega) (by simp only []; omega)
      (by simp only []; rw [hexp] at h1; omega)
      (by
        intro i hi2
        have := hok (i + 1) (by omega)
        simp only []
        rw [show st.calls + 1 + i = st.calls + (i + 1) by omega]
        exact this)
      (by
        simp only []
        rw [show st.calls + 1 + j = st.calls + (j + 1) by omega]
        exact hfail)
    refine ⟨r, hr, ?_, ?_, hlast⟩
    · rw [hret]
      simp only []
      rw [show st.calls + 1 + j = st.calls + (j + 1) by omega]
    · rw [hlen]
      simp only [page_writes_append, page_writes, List.length_append, List.length_cons,
        List.length_nil]
      omega

/-- When every page write succeeds and `nbyte` lies in
`(m * page_size, (m + 1) * page_size]`, `link_writeflash` returns `nbyte` after
`m + 1` reads of `page_size` bytes of the caller's buffer at offsets `0`,
`page_size`, ... and `m + 1` page writes at consecutive addresses: it reads
`(m + 1) * page_size` bytes, whether `nbyte` is a multiple of the page size or
not. -/
theorem link_writeflash_success (page_size_max : Int) (ioctl_result : Nat → Int)
    (mem : Nat → Nat) (addr nbyte : Int) (m : Nat)
    (hps : 1 ≤ page_size_max) (hn : 1 ≤ nbyte)
    (hovf : nbyte + page_size_max ≤ 2147483647)
    (hok : ∀ n, 0 ≤ ioctl_result n)
    (h1 : (m : Int) * (if page_size_max > nbyte then nbyte else page_size_max) < nbyte)
    (h2 : nbyte ≤
      ((m : Int) + 1) * (if page_size_max > nbyte then nbyte else page_size_max)) :
    ∃ r, link_writeflash page_size_max ioctl_result mem addr nbyte = some r ∧
      r.ret = nbyte ∧
      copy_ranges r.events =
        (List.range (m + 1)).map
          (fun k =>
            (k * (if page_size_max > nbyte then nbyte else page_size_max).toNat,
              (if page_size_max > nbyte then nbyte else page_size_max).toNat)) ∧
      page_writes r.events =
        (List.range (m + 1)).map
          (fun k =>
            (u32 (u32_of_int addr +
                k * u32_of_int (if page_size_max > nbyte then nbyte else page_size_max)),
              (if page_size_max > nbyte then nbyte else page_size_max))) := by
  unfold link_writeflash
  simp only []
  generalize hpsz : (if page_size_max > nbyte then nbyte else page_size_max) = ps at *
  have hps1 : 1 ≤ ps := by rw [← hpsz]; split <;> omega
  have hps2 : ps ≤ page_size_max := by rw [← hpsz]; split <;> omega
  have hmle : (m : Int) ≤ (m : Int) * ps := by
    have := Int.mul_le_mul_of_nonneg_left hps1 (Int.ofNat_nonneg m)
    simpa using this
  obtain ⟨r, hr, hret, hcopy, hpages⟩ := writeflash_loop_success page_size_max ioctl_result
    mem ps nbyte hps1 (by omega) hok m (nbyte.toNat + 1)
    { addr := u32_of_int addr, offset := 0, bytes_written := 0, calls := 0, events := [] }
    (by omega) (by simp) (by simp only []; unfold u32_of_int; omega)
    (by simp only []; omega) (by simp only []; omega)
  refine ⟨r, hr, hret, ?_, ?_⟩
  · rw [hcopy]; simp [copy_ranges]
  · rw [hpages]; simp [page_writes]

theorem link_writeflash_success_witness :
    ∃ r, link_writeflash 256 (fun _ => 0) (fun i => i % 256) 4096 512 = some r ∧
      r.ret = 512 ∧
      copy_ranges r.events =
        (List.range (1 + 1)).map
          (fun k =>
            (k * (if (256 : Int) > 512 then (512 : Int) else 256).toNat,
              (if (256 : Int) > 512 then (512 : Int) else 256).toNat)) ∧
      page_writes r.events =
        (List.range (1 + 1)).map
          (fun k =>
            (u32 (u32_of_int 4096 +
                k * u32_of_int (if (256 : Int) > 512 then (512 : Int) else 256)),
              (if (256 : Int) > 512 then (512 : Int) else 256))) :=
  link_writeflash_success 256 (fun _ => 0) (fun i => i % 256) 4096 512 1
    (by decide) (by decide) (by decide) (fun _ => le_refl _) (by decide) (by decide)

/-- When the page write number `j` is the first to fail and is reached,
`link_writeflash` returns the error of that write after `j + 1` page writes,
the call of `link_error` being its last. -/
theorem link_writeflash_failure (page_size_max : Int) (ioctl_result : Nat → Int)
    (mem : Nat → Nat) (addr nbyte : Int) (j : Nat)
    (hps : 1 ≤ page_size_max) (hn : 1 ≤ nbyte)
    (hovf : nbyte + page_size_max ≤ 2147483647)
    (hreach : (j : Int) * (if page_size_max > nbyte then nbyte else page_size_max) < nbyte)
    (hok : ∀ i, i < j → 0 ≤ ioctl_result i) (hfail : ioctl_result j < 0) :
    ∃ r, link_writeflash page_size_max ioctl_result mem addr nbyte = some r ∧
      r.ret = ioctl_result j ∧ (page_writes r.events).length = j + 1 ∧
      r.events.getLast? = some LinkEvent.link_error := by
  unfold link_writeflash
  simp only []
  generalize hpsz : (if page_size_max > nbyte then nbyte else page_size_max) = ps at *
  have hps1 : 1 ≤ ps := by rw [← hpsz]; split <;> omega
  have hps2 : ps ≤ page_size_max := by rw [← hpsz]; split <;> omega
  have hjle : (j : Int) ≤ (j : Int) * ps := by
    have := Int.mul_le_mul_of_nonneg_left hps1 (Int.ofNat_nonneg j)
    simpa using this
  obtain ⟨r, hr, hret, hlen, hlast⟩ := writeflash_loop_failure page_size_max ioctl_result
    mem ps nbyte hps1 (by omega) j (nbyte.toNat + 1)
    { addr := u32_of_int addr, offset := 0, bytes_written := 0, calls := 0, events := [] }
    (by omega) (by simp) (by simp only []; omega)
    (by intro i hi; simp only [Nat.zero_add]; exact hok i hi)
    (by simp only [Nat.zero_add]; exact hfail)
  refine ⟨r, hr, ?_, ?_, hlast⟩
  · rw [hret]; simp
  · rw [hlen]; simp [page_writes]

/-- C21, the failing input: `BOOTLOADER_WRITEPAGESIZE` is 256, `nbyte` is 257 and
both page writes succeed. The function returns 257, but its second `memcpy` reads
256 bytes from offset 256 of the caller's buffer, that is the offsets 256 to 511
of a buffer of 257 bytes: 512 bytes are read in all, and the second page is
written with a length of 256. -/
theorem link_writeflash_reads_past_buffer :
    (link_writeflash 256 (fun _ => 0) (fun i => i % 256) 4096 257).map
      (fun r => (r.ret, copy_ranges r.events, page_writes r.events)) =
      some (257, [(0, 256), (256, 256)], [(4096, 256), (4352, 256)]) := by
  decide

end StratifyOS
